import Mathlib

/-!
A shallow embedding of the pcopy HTTP clipboard server (server.go) in Lean 4.

Conventions of the embedding:
* Byte strings are `List Nat` (one `Nat` per byte); request bodies are lists
  of chunks (`List (List Nat)`), mirroring the chunked copy loop of `io.Copy`.
* Machine integers (int64 counters, sizes) are modelled as `Int`; the values
  involved never approach overflow, so no wraparound is modelled.
* The filesystem is a pair of association lists: content files (id to entry)
  and metadata side-files (id to meta), mirroring the on-disk layout of one
  content file plus one sibling meta file per entry.
* Fallible I/O is driven by explicit failure flags in an `Env` record
  (mkfifo failure, open failure, directory-read failure, per-id remove
  failures, ...); wall-clock time is `Env.now` in seconds.  The EPIPE
  (broken pipe) transport failure and template rendering are outside the
  model: no claim depends on them.
* External collaborators that are consumed as opaque services by the server
  (HMAC-SHA256, base64 decoding, the slow key-derivation function, the URL
  builder) are passed in as function parameters, so the theorems quantify
  over them.
-/

namespace Pcopy

/-- One byte string (e.g. file content chunk, credential bytes). -/
abbrev Bytes := List Nat

/-! ### Constants from server.go -/

def reservedFiles : List String :=
  ["help", "version", "info", "verify", "static", "robots.txt", "favicon.ico"]

def visitorCountLimit : Int := 10

def visitorExpungeAfterSecs : Int := 180

def defaultMaxAuthAgeSecs : Int := 60

/-- Modelled from the spec: the mode constants live in a file of this
repository that is not under src/ (only server.go is); the spec names the
two modes read-write and read-only. -/
def modeReadOnly : String := "ro"

/-- Modelled from the spec: the read-write mode constant, sibling of
`modeReadOnly`, from the same missing file. -/
def modeReadWrite : String := "rw"

/-! ### ResourceLimiter

Modelled from the spec: the limiter implementation (limiter.go) is not under
src/; spec section 4.4 describes it: `add(n)` fails without mutating state if
a max is set and `value+n` would exceed it, otherwise increments; `sub(n)`
decrements; `set(n)` overwrites; a limit of 0 means unlimited. -/

structure Limiter where
  value : Int
  limit : Int
deriving Repr, DecidableEq

def newLimiter (limit : Int) : Limiter := ⟨0, limit⟩

/-- Modelled from the spec: `add(n)` on the ResourceLimiter. -/
def Limiter.add (l : Limiter) (n : Int) : Option Limiter :=
  if l.limit ≠ 0 ∧ l.value + n > l.limit then none
  else some ⟨l.value + n, l.limit⟩

/-- Modelled from the spec: `sub(n)` on the ResourceLimiter. -/
def Limiter.sub (l : Limiter) (n : Int) : Limiter := ⟨l.value - n, l.limit⟩

/-- Modelled from the spec: `set(n)` on the ResourceLimiter. -/
def Limiter.set (l : Limiter) (n : Int) : Limiter := ⟨n, l.limit⟩

/-! ### Data model -/

/-- A stored clipboard entry: the content file.  `chunks` records the
content as the sequence of chunks written to it, `isFifo` whether the file
is the named-pipe streaming primitive, `modTime` its modification time. -/
structure Entry where
  chunks : List Bytes
  isFifo : Bool
  modTime : Int
deriving Repr, DecidableEq

def Entry.size (e : Entry) : Int := (((e.chunks.map List.length).sum : Nat) : Int)

/-- The metadata side-file (`<id>:meta`), JSON with mode and expiry. -/
structure Meta where
  mode : String
  expires : Int
deriving Repr, DecidableEq

/-- Per-client-address visitor state (put-count limiter and last-seen). -/
structure Visitor where
  countLimiter : Limiter
  lastSeen : Int
deriving Repr, DecidableEq

/-- The mutable server state: the clipboard directory (content files and
meta side-files), the two global limiters, and the visitor map. -/
structure ServerState where
  files : List (String × Entry)
  metas : List (String × Meta)
  countLimiter : Limiter
  sizeLimiter : Limiter
  visitors : List (String × Visitor)
deriving Repr, DecidableEq

/-- The pieces of `Config` that the modelled handlers read. -/
structure Config where
  clipboardCountLimit : Int
  clipboardSizeLimit : Int
  fileSizeLimit : Int
  fileExpireAfter : Int
  fileModesAllowed : List String
  serverAddr : String
deriving Repr, DecidableEq

/-- Injected environment: wall clock and I/O failure switches. -/
structure Env where
  now : Int
  mkfifoFails : Bool
  openFails : Bool
  metaOpenFails : Bool
  flushFails : Bool
  bodyCloseFails : Bool
  readDirFails : Bool
  removeContentFails : List String
  removeMetaFails : List String
deriving Repr, DecidableEq

/-! ### Association-list filesystem primitives -/

def lookupA {α : Type} : List (String × α) → String → Option α
  | [], _ => none
  | (k, v) :: t, key => if k = key then some v else lookupA t key

/-- `os.Remove`: drop every binding of the key. -/
def removeA {α : Type} : List (String × α) → String → List (String × α)
  | [], _ => []
  | (k, v) :: t, key => if k = key then removeA t key else (k, v) :: removeA t key

/-- Create-or-truncate a file: one binding of the key with the new value. -/
def setA {α : Type} (l : List (String × α)) (k : String) (v : α) : List (String × α) :=
  removeA l k ++ [(k, v)]

/-! ### HTTP plumbing -/

/-- A parsed PUT/POST request, after routing.  Header and query values are
kept as the strings the handlers inspect; the TTL values arrive pre-parsed
(`parseDuration` is not part of the modelled core), with `ttlParseErr`
standing for a parse failure of a supplied TTL. -/
structure PutRequest where
  ip : String
  bodyChunks : Option (List Bytes)
  headerStream : String
  queryStream : String
  headerFormat : String
  queryFormat : String
  headerMode : String
  queryMode : String
  queryTTL : Option Int
  headerTTL : Option Int
  ttlParseErr : Bool
deriving Repr, DecidableEq

/-- Response headers and body chunks written by a handler. -/
structure HttpOut where
  headers : List (String × String)
  body : List String
deriving Repr, DecidableEq

def noOut : HttpOut := ⟨[], []⟩

instance {ε α : Type} [DecidableEq ε] [DecidableEq α] : DecidableEq (Except ε α) := fun x y =>
  match x, y with
  | .ok a, .ok b =>
    if h : a = b then isTrue (by rw [h]) else isFalse (by intro hc; cases hc; exact h rfl)
  | .error a, .error b =>
    if h : a = b then isTrue (by rw [h]) else isFalse (by intro hc; cases hc; exact h rfl)
  | .ok _, .error _ => isFalse (by intro h; cases h)
  | .error _, .ok _ => isFalse (by intro h; cases h)

/-- Result and final state of a PUT/POST handler invocation; the error
carries the HTTP status code the server maps it to (500 for plain errors). -/
structure PutOut where
  result : Except Nat Unit
  output : HttpOut
  state : ServerState
deriving Repr, DecidableEq

/-- Result of a GET handler invocation: the body bytes served, or a code. -/
structure GetOut where
  result : Except Nat Bytes
  state : ServerState
deriving Repr, DecidableEq

/-! ### Request field helpers (server.go lines 525-568) -/

def isStream (r : PutRequest) : Bool :=
  r.headerStream = "yes" || r.queryStream = "1"

def outputFormat (r : PutRequest) : String :=
  if r.headerFormat = "json" || r.queryFormat = "json" then "json" else "text"

def getFileMode (cfg : Config) (r : PutRequest) : Except Nat String :=
  let mode :=
    if r.headerMode ≠ "" then r.headerMode
    else if r.queryMode ≠ "" then r.queryMode
    else cfg.fileModesAllowed.headD ""
  if mode ∈ cfg.fileModesAllowed then .ok mode else .error 400

def getTTL (cfg : Config) (r : PutRequest) : Except Nat Int :=
  if r.ttlParseErr then .error 400
  else
    let ttl :=
      match r.queryTTL with
      | some t => t
      | none =>
        match r.headerTTL with
        | some t => t
        | none => if cfg.fileExpireAfter > 0 then cfg.fileExpireAfter else 0
    let ttl := if cfg.fileExpireAfter > 0 ∧ ttl > cfg.fileExpireAfter then cfg.fileExpireAfter else ttl
    .ok ttl

/-- Modelled from the spec: `config.GenerateClipURL` is not under src/; the
spec example gives the retrieval URL as `<serverAddr>/<id>`. -/
def generateClipURL (cfg : Config) (id : String) : String :=
  cfg.serverAddr ++ "/" ++ id

/-- `writePutOutput` (server.go lines 490-523): success headers plus the
response body chunks, in the order written.  The JSON encoding follows
Go's `json.Encoder` (object then a trailing newline). -/
def jsonPutBody (url : String) (expires : Int) : String :=
  "\x7b\"url\":\"" ++ url ++ "\",\"expires\":" ++ toString expires ++ "\x7d\x0a"

def writePutOutput (url : String) (expires : Int) (format : String) : HttpOut :=
  { headers :=
      [("Content-Type", "application/octet-stream"),
       ("X-Url", url),
       ("X-Expires", toString expires)],
    body :=
      (if format = "json" then [jsonPutBody url expires] else [url ++ "\x0a"])
        ++ List.replicate 100 "hi there\x0a" }

/-! ### Janitor sweep (server.go lines 697-777) -/

/-- `isExpired`: a file is expired if its meta file has a positive expiry in
the past, or, with no readable meta file, if the configured default max age
has elapsed since its modification time. -/
def isExpired (cfg : Config) (now : Int) (e : Entry) (meta : Option Meta) : Bool :=
  match meta with
  | some m => if m.expires > 0 then decide (now - m.expires > 0) else false
  | none =>
    if cfg.fileExpireAfter = 0 ∨ now - e.modTime ≤ cfg.fileExpireAfter then false else true

/-- The walk of `updateStatsAndExpire`: iterate the directory snapshot,
attempt `maybeExpire` on each content file, and accumulate the count and
total size of the files for which it returned false.  Removal failures are
logged-and-continue in the source; here they are driven by the env lists. -/
def sweepFold (cfg : Config) (env : Env) :
    List (String × Entry) → List (String × Entry) → List (String × Meta) → Int → Int →
    List (String × Entry) × List (String × Meta) × Int × Int
  | [], files, metas, num, sz => (files, metas, num, sz)
  | (id, e) :: rest, files, metas, num, sz =>
    if isExpired cfg env.now e (lookupA metas id) then
      if id ∈ env.removeContentFails then
        sweepFold cfg env rest files metas (num + 1) (sz + e.size)
      else
        let files2 := removeA files id
        if id ∈ env.removeMetaFails then
          sweepFold cfg env rest files2 metas (num + 1) (sz + e.size)
        else
          sweepFold cfg env rest files2 (removeA metas id) num sz
    else
      sweepFold cfg env rest files metas (num + 1) (sz + e.size)

/-- `updateStatsAndExpire`: prune idle visitors; abort if the directory
read fails; otherwise expire files and `set()` the two global limiters. -/
def updateStatsAndExpire (cfg : Config) (env : Env) (st : ServerState) : ServerState :=
  let visitors2 := st.visitors.filter fun kv => !decide (env.now - kv.2.lastSeen > visitorExpungeAfterSecs)
  if env.readDirFails then { st with visitors := visitors2 }
  else
    let r := sweepFold cfg env st.files st.files st.metas 0 0
    { files := r.1, metas := r.2.1,
      countLimiter := st.countLimiter.set r.2.2.1,
      sizeLimiter := st.sizeLimiter.set r.2.2.2,
      visitors := visitors2 }

/-! ### Visitors (server.go lines 824-846) -/

def getVisitor (env : Env) (vs : List (String × Visitor)) (ip : String) :
    Visitor × List (String × Visitor) :=
  match lookupA vs ip with
  | none =>
    let v : Visitor := ⟨newLimiter visitorCountLimit, env.now⟩
    (v, setA vs ip v)
  | some v =>
    let v2 : Visitor := ⟨v.countLimiter, env.now⟩
    (v2, setA vs ip v2)

/-! ### The PUT handler (server.go lines 355-488) -/

/-- The copy loop: `io.Copy` through the composed limit writer.  Modelled
from the spec where it concerns the limit writer itself (limiter.go is not
under src/): each chunk is charged, in order, against the per-upload file
size limiter and then the global aggregate size limiter; a failed charge
aborts with `errLimitReached` (first component false), leaving the chunks
already written in place. -/
def copyChunks : Limiter → Limiter → List Bytes → List Bytes →
    Bool × Limiter × Limiter × List Bytes
  | fl, sl, written, [] => (true, fl, sl, written)
  | fl, sl, written, c :: rest =>
    match fl.add (c.length : Int) with
    | none => (false, fl, sl, written)
    | some fl2 =>
      match sl.add (c.length : Int) with
      | none => (false, fl2, sl, written)
      | some sl2 => copyChunks fl2 sl2 (written ++ [c]) rest

/-- Stage of `handleClipboardPut` from the `os.OpenFile` call on: open the
destination, copy the body through the limit writer, close the body, and
(for non-streaming requests) emit the success output.  The deferred
`updateStatsAndExpire` registered right after the successful open runs on
every exit path of this stage. -/
def putStage3 (cfg : Config) (env : Env) (st : ServerState) (id : String)
    (chunks : List Bytes) (url : String) (expires : Int) (format : String)
    (strm : Bool) (earlyOut : HttpOut) : PutOut :=
  if env.openFails then
    ⟨.error 500, earlyOut, { st with countLimiter := st.countLimiter.sub 1 }⟩
  else
    match copyChunks (newLimiter cfg.fileSizeLimit) st.sizeLimiter [] chunks with
    | (okCopy, _, sl2, written) =>
      let stc : ServerState :=
        { st with files := setA st.files id ⟨written, strm, env.now⟩, sizeLimiter := sl2 }
      if !okCopy then
        ⟨.error 413, earlyOut,
          updateStatsAndExpire cfg env { stc with files := removeA stc.files id }⟩
      else if env.bodyCloseFails then
        ⟨.error 500, earlyOut,
          updateStatsAndExpire cfg env { stc with files := removeA stc.files id }⟩
      else if strm then
        ⟨.ok (), earlyOut, updateStatsAndExpire cfg env stc⟩
      else if env.flushFails then
        ⟨.error 500, earlyOut,
          updateStatsAndExpire cfg env { stc with files := removeA stc.files id }⟩
      else
        ⟨.ok (), writePutOutput url expires format, updateStatsAndExpire cfg env stc⟩

/-- Stage of `handleClipboardPut` after the existence and limiter checks:
delete any prior entry and meta file, resolve mode and TTL, persist the
meta file, then (for streams) make the fifo and flush the early success
output, then hand over to `putStage3`. -/
def putStage2 (cfg : Config) (env : Env) (st : ServerState) (r : PutRequest)
    (id : String) (chunks : List Bytes) : PutOut :=
  let st1 : ServerState :=
    { st with files := removeA st.files id, metas := removeA st.metas id }
  match getFileMode cfg r with
  | .error c => ⟨.error c, noOut, st1⟩
  | .ok mode =>
    match getTTL cfg r with
    | .error c => ⟨.error c, noOut, st1⟩
    | .ok ttl =>
      let expires : Int := if ttl > 0 then env.now + ttl else 0
      if env.metaOpenFails then ⟨.error 500, noOut, st1⟩
      else
        let st2 : ServerState := { st1 with metas := setA st1.metas id ⟨mode, expires⟩ }
        let format := outputFormat r
        let url := generateClipURL cfg id
        if isStream r then
          if env.mkfifoFails then
            ⟨.error 500, noOut, { st2 with countLimiter := st2.countLimiter.sub 1 }⟩
          else
            let st3 : ServerState :=
              { st2 with files := setA st2.files id ⟨[], true, env.now⟩ }
            if env.flushFails then
              ⟨.error 500, noOut, { st3 with countLimiter := st3.countLimiter.sub 1 }⟩
            else
              putStage3 cfg env st3 id chunks url expires format true
                (writePutOutput url expires format)
        else
          putStage3 cfg env st2 id chunks url expires format false noOut

/-- `handleClipboardPut`: reserved-name check, body check, existence check
with the global count limiter (absent entry) or the visitor put-count
limiter and read-only check (present entry), then `putStage2`. -/
def handleClipboardPut (cfg : Config) (env : Env) (st : ServerState)
    (r : PutRequest) (id : String) : PutOut :=
  if id ∈ reservedFiles then ⟨.error 400, noOut, st⟩
  else
    match r.bodyChunks with
    | none => ⟨.error 400, noOut, st⟩
    | some chunks =>
      match lookupA st.files id with
      | none =>
        match st.countLimiter.add 1 with
        | none => ⟨.error 429, noOut, st⟩
        | some cl => putStage2 cfg env { st with countLimiter := cl } r id chunks
      | some _ =>
        match getVisitor env st.visitors r.ip with
        | (v, visitors1) =>
          let stv : ServerState := { st with visitors := visitors1 }
          match v.countLimiter.add 1 with
          | none => ⟨.error 429, noOut, stv⟩
          | some vcl =>
            let stv2 : ServerState :=
              { stv with visitors := setA visitors1 r.ip ⟨vcl, v.lastSeen⟩ }
            match lookupA st.metas id with
            | none => ⟨.error 500, noOut, stv2⟩
            | some m =>
              if m.mode = modeReadOnly then ⟨.error 405, noOut, stv2⟩
              else putStage2 cfg env stv2 r id chunks

/-! ### The GET handler (server.go lines 321-348) -/

/-- `handleClipboardGet`: reserved-name check, stat (absent means 404),
stream the file bytes, and delete the file afterwards when it is the
streaming named pipe. -/
def handleClipboardGet (st : ServerState) (id : String) : GetOut :=
  if id ∈ reservedFiles then ⟨.error 400, st⟩
  else
    match lookupA st.files id with
    | none => ⟨.error 404, st⟩
    | some e =>
      if e.isFifo then ⟨.ok e.chunks.flatten, { st with files := removeA st.files id }⟩
      else ⟨.ok e.chunks.flatten, st⟩

/-! ### Identifier pattern (router, server.go line 223-225) -/

def isIdFirstChar (c : Char) : Bool := c.isAlphanum

def isIdRestChar (c : Char) : Bool := c.isAlphanum || c = '-' || c = '_' || c = '.'

/-- The clipboard id pattern of the route table:
`(?i)([a-z0-9][-_.a-z0-9]` followed by 1 to 100 more characters. -/
def isValidId (s : String) : Bool :=
  match s.toList with
  | [] => false
  | c :: rest =>
    isIdFirstChar c && decide (1 ≤ rest.length) && decide (rest.length ≤ 100)
      && rest.all isIdRestChar

/-! ### Authorization (server.go lines 590-687) -/

structure Key where
  bytes : Bytes
  salt : Bytes
deriving Repr, DecidableEq

def bytesToString (bs : Bytes) : String := String.mk (bs.map Char.ofNat)

def dropExact : List Char → List Char → Option (List Char)
  | [], cs => some cs
  | _ :: _, [] => none
  | p :: ps, c :: cs => if c = p then dropExact ps cs else none

def spanDigits : List Char → List Char × List Char
  | [] => ([], [])
  | c :: cs =>
    if c.isDigit then
      match spanDigits cs with
      | (d, r) => (c :: d, r)
    else ([], c :: cs)

def digitsToNat (ds : List Char) : Nat :=
  ds.foldl (fun a c => a * 10 + (c.toNat - 48)) 0

/-- Go's regexp `\s` character class. -/
def isSpaceGo (c : Char) : Bool :=
  c = ' ' || c = '\t' || c = '\x0a' || c = '\x0c' || c = '\x0d'

/-- The `authHmacRegex` match: `HMAC <digits> <digits> <rest>` where the
rest is nonempty and newline-free (`.` does not match a newline). -/
def parseHmacAuth (s : String) : Option (Nat × Nat × String) :=
  match dropExact "HMAC ".toList s.toList with
  | none => none
  | some cs =>
    match spanDigits cs with
    | (d1, r1) =>
      if d1 = [] then none
      else
        match r1 with
        | ' ' :: r2 =>
          match spanDigits r2 with
          | (d2, r3) =>
            if d2 = [] then none
            else
              match r3 with
              | ' ' :: rest =>
                if rest = [] ∨ rest.any (· = '\x0a') then none
                else some (digitsToNat d1, digitsToNat d2, String.mk rest)
              | _ => none
        | _ => none

/-- The `authBasicRegex` match: `Basic <non-whitespace, nonempty>`. -/
def parseBasicAuth (s : String) : Option String :=
  match dropExact "Basic ".toList s.toList with
  | none => none
  | some rest =>
    if rest = [] ∨ rest.any isSpaceGo then none else some (String.mk rest)

/-- The data string the server signs: `<timestamp>:<ttl>:<method>:<path>`. -/
def hmacMessage (timestamp ttlSecs : Nat) (method path : String) : String :=
  toString timestamp ++ ":" ++ toString ttlSecs ++ ":" ++ method ++ ":" ++ path

/-- `authorizeHmac` (server.go lines 615-663): base64-decode the signature,
recompute the HMAC over the message, compare, then bound the request age.
The HMAC-SHA256 primitive and base64 decoding are opaque collaborators,
passed in as `hmacSha256` and `b64decode`. -/
def authorizeHmac (keyBytes : Bytes) (hmacSha256 : Bytes → String → Bytes)
    (b64decode : String → Option Bytes) (now : Int)
    (timestamp ttlSecs : Nat) (sigB64 : String) (method path : String) : Bool :=
  match b64decode sigB64 with
  | none => false
  | some hash =>
    let rehash := hmacSha256 keyBytes (hmacMessage timestamp ttlSecs method path)
    if hash ≠ rehash then false
    else
      let maxAge : Int := if ttlSecs > 0 then (ttlSecs : Int) else defaultMaxAuthAgeSecs
      if maxAge > 0 then
        if now - (timestamp : Int) > maxAge then false else true
      else true

def splitOnByte (b : Nat) : Bytes → List Bytes
  | [] => [[]]
  | c :: cs =>
    let r := splitOnByte b cs
    if c = b then [] :: r
    else
      match r with
      | h :: t => (c :: h) :: t
      | [] => [[c]]

/-- `authorizeBasic` (server.go lines 665-687): base64-decode `user:pass`,
require exactly two colon-separated parts, derive a key from the password
part with the server salt, and compare with the configured key.  The key
derivation function is an opaque collaborator. -/
def authorizeBasic (key : Key) (deriveKey : Bytes → Bytes → Bytes)
    (b64decode : String → Option Bytes) (b64UserPass : String) : Bool :=
  match b64decode b64UserPass with
  | none => false
  | some userPassBytes =>
    let parts := splitOnByte 58 userPassBytes
    if parts.length ≠ 2 then false
    else
      let passwordBytes := parts.getD 1 []
      decide (deriveKey passwordBytes key.salt = key.bytes)

/-- `authorize` (server.go lines 590-613): open server accepts everything;
otherwise take the Authorization header, replaced wholesale by the decoded
query-parameter override when present (a decode failure is unauthorized),
and dispatch on the credential shape. -/
def authorize (keyCfg : Option Key) (hmacSha256 : Bytes → String → Bytes)
    (deriveKey : Bytes → Bytes → Bytes) (b64decode : String → Option Bytes)
    (now : Int) (authHeader : String) (queryAuth : Option String)
    (method path : String) : Bool :=
  match keyCfg with
  | none => true
  | some key =>
    let authRes : Option String :=
      match queryAuth with
      | some q => (b64decode q).map bytesToString
      | none => some authHeader
    match authRes with
    | none => false
    | some auth =>
      match parseHmacAuth auth with
      | some (ts, ttl, sig) =>
        authorizeHmac key.bytes hmacSha256 b64decode now ts ttl sig method path
      | none =>
        match parseBasicAuth auth with
        | some up => authorizeBasic key deriveKey b64decode up
        | none => false

/-! ### Derived measures and test fixtures -/

def keysOf {α : Type} (l : List (String × α)) : List String := l.map Prod.fst

def totalLen (chunks : List Bytes) : Int := (((chunks.map List.length).sum : Nat) : Int)

def entriesSize (l : List (String × Entry)) : Int := (l.map fun kv => kv.2.size).sum

/-- The files for which `maybeExpire` deletes both the content file and the
meta file during a sweep: expired, and neither removal fails. -/
def expiryDeleted (cfg : Config) (env : Env) (metas : List (String × Meta))
    (kv : String × Entry) : Bool :=
  isExpired cfg env.now kv.2 (lookupA metas kv.1)
    && !(decide (kv.1 ∈ env.removeContentFails))
    && !(decide (kv.1 ∈ env.removeMetaFails))

/-- A plain PUT request: no stream, no explicit format, mode or TTL. -/
def plainPutRequest (ip : String) (b : List Bytes) : PutRequest :=
  ⟨ip, some b, "", "", "", "", "", "", none, none, false⟩

/-- A streaming PUT request (`X-Stream: yes`), otherwise plain. -/
def streamPutRequest (ip : String) (b : List Bytes) : PutRequest :=
  ⟨ip, some b, "yes", "", "", "", "", "", none, none, false⟩

/-- An environment with no injected I/O failures. -/
def quietEnv (now : Int) : Env := ⟨now, false, false, false, false, false, false, [], []⟩

/-- A server configuration whose only active cap is the global entry count. -/
def cfgCountCap (n : Int) : Config := ⟨n, 0, 0, 0, [modeReadWrite], "https://srv"⟩

/-- A fresh server state as built by `newServer`: empty clipboard, zeroed
limiters (count cap `cap`, unlimited size), no visitors. -/
def emptyState (cap : Int) : ServerState := ⟨[], [], ⟨0, cap⟩, ⟨0, 0⟩, []⟩

/-- Run a sequence of PUT requests (one per `(id, body)` pair) from one
client, collecting the per-request results and the final state. -/
def runFreshPuts (cfg : Config) (env : Env) :
    ServerState → List (String × List Bytes) → List (Except Nat Unit) × ServerState
  | st, [] => ([], st)
  | st, (id, b) :: rest =>
    let out := handleClipboardPut cfg env st (plainPutRequest "1.2.3.4" b) id
    let r := runFreshPuts cfg env out.state rest
    (out.result :: r.1, r.2)

/-- Fixture: no caps at all. -/
def cfgAnyCount : Config := ⟨0, 0, 0, 0, [modeReadWrite], "https://srv"⟩

/-- Fixture: per-upload file size cap of one byte, everything else open. -/
def cfgSmallFile : Config := ⟨0, 0, 1, 0, [modeReadWrite], "https://srv"⟩

/-- Fixture: the mkfifo call fails. -/
def envMkfifoFail : Env := ⟨0, true, false, false, false, false, false, [], []⟩

/-- Fixture: removing the meta file of entry "a" fails during the sweep. -/
def envMetaRemoveFail : Env := ⟨100, false, false, false, false, false, false, [], ["a"]⟩

/-- Fixture: one stored read-write entry "a" with consistent counters. -/
def stOneFile : ServerState :=
  ⟨[("a", ⟨[[104]], false, 0⟩)], [("a", ⟨modeReadWrite, 0⟩)], ⟨1, 0⟩, ⟨1, 0⟩, []⟩

/-- Fixture: one entry "a" of size 5 that expired at time 10. -/
def stExpired : ServerState :=
  ⟨[("a", ⟨[[1, 2, 3, 4, 5]], false, 0⟩)], [("a", ⟨modeReadWrite, 10⟩)], ⟨1, 0⟩, ⟨5, 0⟩, []⟩

/-- Fixture decoder: every string decodes to its own character codes. -/
def b64identity : String → Option Bytes := fun s => some (s.toList.map Char.toNat)

/-- Fixture decoder: the query value "q" is invalid, everything else
decodes to its own character codes. -/
def b64QueryFail : String → Option Bytes :=
  fun s => if s = "q" then none else some (s.toList.map Char.toNat)

/-- Fixture key derivation: the derived key is the password itself. -/
def deriveKeyFirstArg : Bytes → Bytes → Bytes := fun p _ => p

/-- Fixture MAC: the tag of a message is its length. -/
def hmacLenFn : Bytes → String → Bytes := fun _ s => [s.length]

/-- Fixture decoder: every signature decodes to the single byte 11. -/
def b64Const11 : String → Option Bytes := fun _ => some [11]

/-- Fixture key: the configured key bytes are those of "pw", empty salt. -/
def keyPw : Key := ⟨[112, 119], []⟩

/-! ## Helper lemmas: association lists -/

theorem lookupA_removeA_self {α : Type} (l : List (String × α)) (k : String) :
    lookupA (removeA l k) k = none := by
  induction l with
  | nil => rfl
  | cons h t ih =>
    obtain ⟨k1, v1⟩ := h
    by_cases hk : k1 = k
    · simp only [removeA, if_pos hk]; exact ih
    · simp only [removeA, if_neg hk, lookupA, if_neg hk]; exact ih

theorem lookupA_removeA_ne {α : Type} (l : List (String × α)) {k k2 : String}
    (h : k ≠ k2) : lookupA (removeA l k) k2 = lookupA l k2 := by
  induction l with
  | nil => rfl
  | cons hd t ih =>
    obtain ⟨k1, v1⟩ := hd
    by_cases hk : k1 = k
    · subst hk
      simp only [removeA, if_pos rfl, lookupA, if_neg h]; exact ih
    · simp only [removeA, if_neg hk, lookupA]
      by_cases hk2 : k1 = k2
      · simp [hk2]
      · simp only [if_neg hk2]; exact ih

theorem removeA_of_lookupA_none {α : Type} (l : List (String × α)) (k : String)
    (h : lookupA l k = none) : removeA l k = l := by
  induction l with
  | nil => rfl
  | cons hd t ih =>
    obtain ⟨k1, v1⟩ := hd
    by_cases hk : k1 = k
    · simp [lookupA, hk] at h
    · simp only [lookupA, if_neg hk] at h
      simp only [removeA, if_neg hk, ih h]

theorem not_mem_removeA_self {α : Type} (l : List (String × α)) (k : String) (v : α) :
    (k, v) ∉ removeA l k := by
  induction l with
  | nil => simp [removeA]
  | cons hd t ih =>
    obtain ⟨k1, v1⟩ := hd
    by_cases hk : k1 = k
    · simpa [removeA, hk] using ih
    · simp only [removeA, if_neg hk, List.mem_cons]
      rintro (h | h)
      · exact hk (congrArg Prod.fst h).symm
      · exact ih h

theorem mem_removeA {α : Type} {l : List (String × α)} {k : String}
    {x : String × α} (h : x ∈ removeA l k) : x ∈ l := by
  induction l with
  | nil => simp [removeA] at h
  | cons hd t ih =>
    obtain ⟨k1, v1⟩ := hd
    by_cases hk : k1 = k
    · simp only [removeA, if_pos hk] at h
      exact List.mem_cons_of_mem _ (ih h)
    · simp only [removeA, if_neg hk, List.mem_cons] at h
      rcases h with h | h
      · exact h ▸ List.mem_cons_self _ _
      · exact List.mem_cons_of_mem _ (ih h)

theorem mem_setA {α : Type} {l : List (String × α)} {k : String} {v : α}
    {x : String × α} (h : x ∈ setA l k v) : x ∈ l ∨ x = (k, v) := by
  simp only [setA, List.mem_append, List.mem_singleton] at h
  rcases h with h | h
  · exact Or.inl (mem_removeA h)
  · exact Or.inr h

theorem lookupA_append_right {α : Type} (l1 l2 : List (String × α)) (k : String)
    (h : lookupA l1 k = none) : lookupA (l1 ++ l2) k = lookupA l2 k := by
  induction l1 with
  | nil => rfl
  | cons hd t ih =>
    obtain ⟨k1, v1⟩ := hd
    by_cases hk : k1 = k
    · simp [lookupA, hk] at h
    · simp only [lookupA, if_neg hk] at h
      simp only [List.cons_append, lookupA, if_neg hk]
      exact ih h

theorem lookupA_setA_self {α : Type} (l : List (String × α)) (k : String) (v : α) :
    lookupA (setA l k v) k = some v := by
  unfold setA
  rw [lookupA_append_right _ _ _ (lookupA_removeA_self l k)]
  simp [lookupA]

theorem lookupA_setA_ne {α : Type} (l : List (String × α)) {k k2 : String} (v : α)
    (h : k ≠ k2) : lookupA (setA l k v) k2 = lookupA l k2 := by
  unfold setA
  induction l with
  | nil => simp [removeA, lookupA, h]
  | cons hd t ih =>
    obtain ⟨k1, v1⟩ := hd
    by_cases hk : k1 = k
    · subst hk
      simp only [removeA, if_pos rfl, lookupA, if_neg h]
      exact ih
    · simp only [removeA, if_neg hk, List.cons_append, lookupA]
      by_cases hk2 : k1 = k2
      · simp [hk2]
      · simp only [if_neg hk2]; exact ih

theorem lookupA_eq_none_of_not_mem_keys {α : Type} {l : List (String × α)}
    {k : String} (h : k ∉ keysOf l) : lookupA l k = none := by
  induction l with
  | nil => rfl
  | cons hd t ih =>
    obtain ⟨k1, v1⟩ := hd
    simp only [keysOf, List.map_cons, List.mem_cons] at h
    push_neg at h
    simp only [lookupA]
    rw [if_neg fun hh => h.1 hh.symm]
    exact ih (by simp only [keysOf]; exact h.2)

theorem lookupA_mem {α : Type} {l : List (String × α)} {k : String} {v : α}
    (h : lookupA l k = some v) : (k, v) ∈ l := by
  induction l with
  | nil => simp [lookupA] at h
  | cons hd t ih =>
    obtain ⟨k1, v1⟩ := hd
    by_cases hk : k1 = k
    · subst hk
      have hv : v1 = v := by simp [lookupA] at h; exact h
      subst hv
      exact List.mem_cons_self _ _
    · simp only [lookupA, if_neg hk] at h
      exact List.mem_cons_of_mem _ (ih h)

theorem mem_lookupA_of_nodup {α : Type} {l : List (String × α)} {k : String} {v : α}
    (hnd : (keysOf l).Nodup) (h : (k, v) ∈ l) : lookupA l k = some v := by
  induction l with
  | nil => simp at h
  | cons hd t ih =>
    obtain ⟨k1, v1⟩ := hd
    simp only [keysOf, List.map_cons, List.nodup_cons] at hnd
    rcases List.mem_cons.mp h with h1 | h1
    · obtain ⟨h1k, h1v⟩ := Prod.ext_iff.mp h1
      simp only [lookupA]
      rw [if_pos h1k.symm]
      exact congrArg some h1v.symm
    · by_cases hk : k1 = k
      · exfalso
        apply hnd.1
        subst hk
        exact List.mem_map.mpr ⟨(k1, v), h1, rfl⟩
      · simp only [lookupA, if_neg hk]
        exact ih hnd.2 h1

theorem keys_removeA_sublist {α : Type} (l : List (String × α)) (k : String) :
    List.Sublist (keysOf (removeA l k)) (keysOf l) := by
  induction l with
  | nil => simp [removeA, keysOf]
  | cons hd t ih =>
    obtain ⟨k1, v1⟩ := hd
    by_cases hk : k1 = k
    · simp only [removeA, if_pos hk, keysOf, List.map_cons]
      exact List.Sublist.cons _ ih
    · simp only [removeA, if_neg hk, keysOf, List.map_cons]
      exact List.Sublist.cons₂ _ ih

theorem not_mem_keys_removeA {α : Type} (l : List (String × α)) (k : String) :
    k ∉ keysOf (removeA l k) := by
  intro h
  obtain ⟨⟨k2, v⟩, hm, he⟩ := List.mem_map.mp h
  exact not_mem_removeA_self l k v (he ▸ hm)

theorem nodup_keys_removeA {α : Type} {l : List (String × α)} (k : String)
    (h : (keysOf l).Nodup) : (keysOf (removeA l k)).Nodup :=
  h.sublist (keys_removeA_sublist l k)

theorem nodup_keys_setA {α : Type} {l : List (String × α)} (k : String) (v : α)
    (h : (keysOf l).Nodup) : (keysOf (setA l k v)).Nodup := by
  have : keysOf (setA l k v) = keysOf (removeA l k) ++ [k] := by
    simp [setA, keysOf]
  rw [this]
  refine List.Nodup.append (nodup_keys_removeA k h) (List.nodup_singleton k) ?_
  intro a ha hb
  simp only [List.mem_singleton] at hb
  exact not_mem_keys_removeA l k (hb ▸ ha)

theorem length_removeA_of_lookupA_some {α : Type} {l : List (String × α)}
    {k : String} {v : α} (hnd : (keysOf l).Nodup) (h : lookupA l k = some v) :
    (removeA l k).length + 1 = l.length := by
  induction l with
  | nil => simp [lookupA] at h
  | cons hd t ih =>
    obtain ⟨k1, v1⟩ := hd
    simp only [keysOf, List.map_cons, List.nodup_cons] at hnd
    by_cases hk : k1 = k
    · subst hk
      have hnone : lookupA t k1 = none :=
        lookupA_eq_none_of_not_mem_keys (by simp only [keysOf]; exact hnd.1)
      simp [removeA, removeA_of_lookupA_none t k1 hnone]
    · simp only [lookupA, if_neg hk] at h
      simp only [removeA, if_neg hk, List.length_cons]
      rw [← ih hnd.2 h]

theorem length_setA_of_lookupA_none {α : Type} {l : List (String × α)}
    {k : String} (v : α) (h : lookupA l k = none) :
    (setA l k v).length = l.length + 1 := by
  simp [setA, removeA_of_lookupA_none l k h]

theorem length_setA_of_lookupA_some {α : Type} {l : List (String × α)}
    {k : String} {w : α} (v : α) (hnd : (keysOf l).Nodup)
    (h : lookupA l k = some w) : (setA l k v).length = l.length := by
  simp only [setA, List.length_append, List.length_singleton]
  exact length_removeA_of_lookupA_some hnd h

/-! ## Helper lemmas: the limiter -/

theorem Limiter.add_eq_none_iff (l : Limiter) (n : Int) :
    l.add n = none ↔ l.limit ≠ 0 ∧ l.value + n > l.limit := by
  unfold Limiter.add
  split <;> simp_all

theorem Limiter.add_eq_some_iff (l : Limiter) (n : Int) (l2 : Limiter) :
    l.add n = some l2 ↔
      ¬(l.limit ≠ 0 ∧ l.value + n > l.limit) ∧ l2 = ⟨l.value + n, l.limit⟩ := by
  unfold Limiter.add
  split <;> simp_all [eq_comm]

theorem Limiter.add_of_limit_zero (l : Limiter) (n : Int) (h : l.limit = 0) :
    l.add n = some ⟨l.value + n, l.limit⟩ := by
  unfold Limiter.add
  simp [h]

/-! ## Helper lemmas: the copy loop -/

theorem totalLen_cons (c : Bytes) (rest : List Bytes) :
    totalLen (c :: rest) = (c.length : Int) + totalLen rest := by
  simp [totalLen]

theorem copyChunks_unlimited (chunks : List Bytes) :
    ∀ (fl sl : Limiter) (written : List Bytes), fl.limit = 0 → sl.limit = 0 →
    copyChunks fl sl written chunks
      = (true, ⟨fl.value + totalLen chunks, fl.limit⟩,
         ⟨sl.value + totalLen chunks, sl.limit⟩, written ++ chunks) := by
  induction chunks with
  | nil =>
    intro fl sl written hfl hsl
    simp [copyChunks, totalLen]
  | cons c rest ih =>
    intro fl sl written hfl hsl
    have h1 := Limiter.add_of_limit_zero fl (c.length : Int) hfl
    have h2 := Limiter.add_of_limit_zero sl (c.length : Int) hsl
    simp only [copyChunks, h1, h2]
    rw [ih ⟨fl.value + (c.length : Int), fl.limit⟩ ⟨sl.value + (c.length : Int), sl.limit⟩
      (written ++ [c]) hfl hsl]
    simp only [totalLen_cons, Prod.mk.injEq, Limiter.mk.injEq, List.append_assoc,
      List.singleton_append, true_and, and_true]
    refine ⟨?_, ?_⟩ <;> ring

theorem copyChunks_ok_written (chunks : List Bytes) :
    ∀ (fl sl : Limiter) (written : List Bytes),
    (copyChunks fl sl written chunks).1 = true →
    (copyChunks fl sl written chunks).2.2.2 = written ++ chunks := by
  induction chunks with
  | nil => intro fl sl written _; simp [copyChunks]
  | cons c rest ih =>
    intro fl sl written h
    cases hfl : fl.add (c.length : Int) with
    | none =>
      simp only [copyChunks, hfl] at h
      exact Bool.noConfusion h
    | some fl2 =>
      cases hsl : sl.add (c.length : Int) with
      | none =>
        simp only [copyChunks, hfl, hsl] at h
        exact Bool.noConfusion h
      | some sl2 =>
        simp only [copyChunks, hfl, hsl] at h ⊢
        rw [ih _ _ _ h]
        simp

theorem copyChunks_cap_fail (chunks : List Bytes) :
    ∀ (fl sl : Limiter),
    ((fl.limit ≠ 0 ∧ fl.value ≤ fl.limit ∧ fl.value + totalLen chunks > fl.limit) ∨
     (fl.limit = 0 ∧ sl.limit ≠ 0 ∧ sl.value ≤ sl.limit ∧
        sl.value + totalLen chunks > sl.limit)) →
    ∀ (written : List Bytes), (copyChunks fl sl written chunks).1 = false := by
  induction chunks with
  | nil =>
    intro fl sl h written
    exfalso
    rcases h with ⟨_, h1, h2⟩ | ⟨_, _, h1, h2⟩ <;> simp [totalLen] at h2 <;> omega
  | cons c rest ih =>
    intro fl sl h written
    rcases h with ⟨hne, hle, hgt⟩ | ⟨hz, hsne, hsle, hsgt⟩
    · cases hfl : fl.add (c.length : Int) with
      | none => simp [copyChunks, hfl]
      | some fl2 =>
        obtain ⟨hnot, rfl⟩ := (Limiter.add_eq_some_iff fl _ fl2).mp hfl
        push_neg at hnot
        cases hsl : sl.add (c.length : Int) with
        | none => simp [copyChunks, hfl, hsl]
        | some sl2 =>
          simp only [copyChunks, hfl, hsl]
          apply ih
          left
          rw [totalLen_cons] at hgt
          exact ⟨hne, hnot hne, by simp only; omega⟩
    · have hflz := Limiter.add_of_limit_zero fl (c.length : Int) hz
      cases hsl : sl.add (c.length : Int) with
      | none => simp [copyChunks, hflz, hsl]
      | some sl2 =>
        obtain ⟨hnot, rfl⟩ := (Limiter.add_eq_some_iff sl _ sl2).mp hsl
        push_neg at hnot
        simp only [copyChunks, hflz, hsl]
        apply ih
        right
        rw [totalLen_cons] at hsgt
        exact ⟨hz, hsne, hnot hsne, by simp only; omega⟩

/-! ## Helper lemmas: the janitor sweep -/

theorem entriesSize_cons (id : String) (e : Entry) (rest : List (String × Entry)) :
    entriesSize ((id, e) :: rest) = e.size + entriesSize rest := by
  simp [entriesSize]

theorem isExpired_of_no_expiry (cfg : Config) (now : Int) (e : Entry)
    (metas : List (String × Meta)) (k : String)
    (hcfg : cfg.fileExpireAfter = 0) (hm : ∀ kv ∈ metas, kv.2.expires = 0) :
    isExpired cfg now e (lookupA metas k) = false := by
  cases hmk : lookupA metas k with
  | none => simp [isExpired, hcfg]
  | some m =>
    have : m.expires = 0 := hm (k, m) (lookupA_mem hmk)
    simp [isExpired, this]

theorem sweepFold_noexpire (cfg : Config) (env : Env) (snapshot : List (String × Entry)) :
    ∀ (files : List (String × Entry)) (metas : List (String × Meta)) (num sz : Int),
    (∀ kv ∈ snapshot, isExpired cfg env.now kv.2 (lookupA metas kv.1) = false) →
    sweepFold cfg env snapshot files metas num sz
      = (files, metas, num + (snapshot.length : Int), sz + entriesSize snapshot) := by
  induction snapshot with
  | nil =>
    intro files metas num sz _
    simp [sweepFold, entriesSize]
  | cons hd rest ih =>
    intro files metas num sz h
    obtain ⟨id, e⟩ := hd
    have hexp : isExpired cfg env.now e (lookupA metas id) = false :=
      h (id, e) (List.mem_cons_self _ _)
    simp only [sweepFold, hexp, Bool.false_eq_true, if_false]
    rw [ih files metas (num + 1) (sz + e.size)
      (fun kv hkv => h kv (List.mem_cons_of_mem _ hkv))]
    simp only [Prod.mk.injEq, List.length_cons, entriesSize_cons, true_and]
    constructor <;> push_cast <;> ring

theorem sweep_noexpire (cfg : Config) (env : Env) (st : ServerState)
    (hcfg : cfg.fileExpireAfter = 0) (hrd : env.readDirFails = false)
    (hm : ∀ kv ∈ st.metas, kv.2.expires = 0) :
    updateStatsAndExpire cfg env st
      = { st with
          countLimiter := st.countLimiter.set (st.files.length : Int),
          sizeLimiter := st.sizeLimiter.set (entriesSize st.files),
          visitors := st.visitors.filter fun kv =>
            !decide (env.now - kv.2.lastSeen > visitorExpungeAfterSecs) } := by
  unfold updateStatsAndExpire
  rw [hrd]
  simp only [Bool.false_eq_true, if_false]
  rw [sweepFold_noexpire cfg env st.files st.files st.metas 0 0
    (fun kv _ => isExpired_of_no_expiry cfg env.now kv.2 st.metas kv.1 hcfg hm)]
  simp

theorem sweepFold_lookup_none (cfg : Config) (env : Env)
    (snapshot : List (String × Entry)) (id : String) :
    ∀ (files : List (String × Entry)) (metas : List (String × Meta)) (num sz : Int),
    lookupA files id = none →
    lookupA (sweepFold cfg env snapshot files metas num sz).1 id = none := by
  induction snapshot with
  | nil => intro files metas num sz h; simpa [sweepFold] using h
  | cons hd rest ih =>
    intro files metas num sz h
    obtain ⟨k2, e2⟩ := hd
    by_cases hexp : isExpired cfg env.now e2 (lookupA metas k2) = true
    · simp only [sweepFold, hexp, if_true]
      by_cases hc : k2 ∈ env.removeContentFails
      · rw [if_pos hc]; exact ih _ _ _ _ h
      · rw [if_neg hc]
        have hrm : lookupA (removeA files k2) id = none := by
          by_cases hk : k2 = id
          · subst hk; exact lookupA_removeA_self files k2
          · rw [lookupA_removeA_ne files hk]; exact h
        by_cases hmf : k2 ∈ env.removeMetaFails
        · rw [if_pos hmf]; exact ih _ _ _ _ hrm
        · rw [if_neg hmf]; exact ih _ _ _ _ hrm
    · rw [Bool.not_eq_true] at hexp
      simp only [sweepFold, hexp, Bool.false_eq_true, if_false]
      exact ih _ _ _ _ h

theorem sweep_lookup_none (cfg : Config) (env : Env) (st : ServerState) (id : String)
    (h : lookupA st.files id = none) :
    lookupA (updateStatsAndExpire cfg env st).files id = none := by
  unfold updateStatsAndExpire
  by_cases hrd : env.readDirFails <;> simp only [hrd, if_true, if_false]
  · exact h
  · exact sweepFold_lookup_none cfg env st.files id st.files st.metas 0 0 h

theorem sweepFold_lookup_preserve (cfg : Config) (env : Env)
    (snapshot : List (String × Entry)) (id : String) (e : Entry) :
    ∀ (files : List (String × Entry)) (metas : List (String × Meta)) (num sz : Int),
    (∀ e2, (id, e2) ∈ snapshot → e2 = e) →
    lookupA files id = some e →
    isExpired cfg env.now e (lookupA metas id) = false →
    lookupA (sweepFold cfg env snapshot files metas num sz).1 id = some e := by
  induction snapshot with
  | nil => intro files metas num sz _ hf _; simpa [sweepFold] using hf
  | cons hd rest ih =>
    intro files metas num sz hsnap hf hne
    obtain ⟨k2, e2⟩ := hd
    by_cases hk : k2 = id
    · subst hk
      have he2 : e2 = e := hsnap e2 (List.mem_cons_self _ _)
      subst he2
      simp only [sweepFold, hne, Bool.false_eq_true, if_false]
      exact ih _ _ _ _ (fun e3 h3 => hsnap e3 (List.mem_cons_of_mem _ h3)) hf hne
    · have hsnap2 : ∀ e3, (id, e3) ∈ rest → e3 = e :=
        fun e3 h3 => hsnap e3 (List.mem_cons_of_mem _ h3)
      by_cases hexp : isExpired cfg env.now e2 (lookupA metas k2) = true
      · simp only [sweepFold, hexp, if_true]
        have hrm : lookupA (removeA files k2) id = some e := by
          rw [lookupA_removeA_ne files hk]; exact hf
        by_cases hc : k2 ∈ env.removeContentFails
        · rw [if_pos hc]; exact ih _ _ _ _ hsnap2 hf hne
        · rw [if_neg hc]
          by_cases hmf : k2 ∈ env.removeMetaFails
          · rw [if_pos hmf]; exact ih _ _ _ _ hsnap2 hrm hne
          · rw [if_neg hmf]
            refine ih _ _ _ _ hsnap2 hrm ?_
            rw [lookupA_removeA_ne metas hk]
            exact hne
      · rw [Bool.not_eq_true] at hexp
        simp only [sweepFold, hexp, Bool.false_eq_true, if_false]
        exact ih _ _ _ _ hsnap2 hf hne

theorem sweep_lookup_preserve (cfg : Config) (env : Env) (st : ServerState)
    (id : String) (e : Entry)
    (hsnap : ∀ e2, (id, e2) ∈ st.files → e2 = e)
    (hf : lookupA st.files id = some e)
    (hne : isExpired cfg env.now e (lookupA st.metas id) = false) :
    lookupA (updateStatsAndExpire cfg env st).files id = some e := by
  unfold updateStatsAndExpire
  by_cases hrd : env.readDirFails <;> simp only [hrd, if_true, if_false]
  · exact hf
  · exact sweepFold_lookup_preserve cfg env st.files id e st.files st.metas 0 0 hsnap hf hne

/-! ## Helper lemmas: the PUT success path -/

theorem mem_setA_self_eq {α : Type} {l : List (String × α)} {k : String} {v e2 : α}
    (h : (k, e2) ∈ setA l k v) : e2 = v := by
  simp only [setA, List.mem_append, List.mem_singleton] at h
  rcases h with h | h
  · exact absurd h (not_mem_removeA_self l k e2)
  · exact (Prod.ext_iff.mp h).2

theorem isExpired_fresh_meta (cfg : Config) (now : Int) (e : Entry) (mode : String)
    (ttl : Int) :
    isExpired cfg now e (some ⟨mode, if ttl > 0 then now + ttl else 0⟩) = false := by
  by_cases h : ttl > 0
  · simp only [isExpired, if_pos h]
    split
    · simp only [decide_eq_false_iff_not]
      omega
    · rfl
  · simp [isExpired, h]

theorem putStage3_ok_files (cfg : Config) (env : Env) (st : ServerState) (id : String)
    (chunks : List Bytes) (url : String) (expires : Int) (format : String)
    (strm : Bool) (earlyOut : HttpOut)
    (hok : (putStage3 cfg env st id chunks url expires format strm earlyOut).result = .ok ())
    (hmeta : isExpired cfg env.now (⟨chunks, strm, env.now⟩ : Entry)
      (lookupA st.metas id) = false) :
    lookupA (putStage3 cfg env st id chunks url expires format strm earlyOut).state.files id
      = some ⟨chunks, strm, env.now⟩ := by
  have hwr := copyChunks_ok_written chunks (newLimiter cfg.fileSizeLimit) st.sizeLimiter []
  unfold putStage3 at hok ⊢
  rcases hcc : copyChunks (newLimiter cfg.fileSizeLimit) st.sizeLimiter [] chunks
    with ⟨okCopy, fl2, sl2, written⟩
  rw [hcc] at hwr
  simp only [hcc] at hok ⊢
  by_cases ho : env.openFails = true
  · rw [if_pos ho] at hok
    exact absurd hok (by simp)
  · rw [if_neg ho] at hok ⊢
    by_cases hoc : (!okCopy) = true
    · rw [if_pos hoc] at hok
      exact absurd hok (by simp)
    · rw [if_neg hoc] at hok ⊢
      simp only [Bool.not_eq_true', Bool.not_eq_false] at hoc
      have hw : written = chunks := by simpa using hwr (by simp [hoc])
      by_cases hbc : env.bodyCloseFails = true
      · rw [if_pos hbc] at hok
        exact absurd hok (by simp)
      · rw [if_neg hbc] at hok ⊢
        have hpres : lookupA (updateStatsAndExpire cfg env
            { st with sizeLimiter := sl2, files := setA st.files id ⟨written, strm, env.now⟩ }).files id
            = some ⟨chunks, strm, env.now⟩ := by
          rw [hw]
          apply sweep_lookup_preserve
          · intro e2 h2
            exact mem_setA_self_eq h2
          · exact lookupA_setA_self st.files id _
          · exact hmeta
        by_cases hst : strm = true
        · rw [if_pos hst] at hok ⊢
          exact hpres
        · rw [if_neg hst] at hok ⊢
          by_cases hff : env.flushFails = true
          · rw [if_pos hff] at hok
            exact absurd hok (by simp)
          · rw [if_neg hff] at hok ⊢
            exact hpres

theorem putStage2_ok_files (cfg : Config) (env : Env) (st : ServerState) (r : PutRequest)
    (id : String) (chunks : List Bytes)
    (hok : (putStage2 cfg env st r id chunks).result = .ok ()) :
    lookupA (putStage2 cfg env st r id chunks).state.files id
      = some ⟨chunks, isStream r, env.now⟩ := by
  unfold putStage2 at hok ⊢
  cases hmode : getFileMode cfg r with
  | error c =>
    simp only [hmode] at hok
    exact absurd hok (by simp)
  | ok mode =>
    simp only [hmode] at hok ⊢
    cases httl : getTTL cfg r with
    | error c =>
      simp only [httl] at hok
      exact absurd hok (by simp)
    | ok ttl =>
      simp only [httl] at hok ⊢
      by_cases hmo : env.metaOpenFails = true
      · rw [if_pos hmo] at hok
        exact absurd hok (by simp)
      · rw [if_neg hmo] at hok ⊢
        by_cases hs : isStream r = true
        · rw [if_pos hs] at hok ⊢
          by_cases hmk : env.mkfifoFails = true
          · rw [if_pos hmk] at hok
            exact absurd hok (by simp)
          · rw [if_neg hmk] at hok ⊢
            by_cases hff : env.flushFails = true
            · rw [if_pos hff] at hok
              exact absurd hok (by simp)
            · rw [if_neg hff] at hok ⊢
              rw [hs]
              refine putStage3_ok_files _ _ _ _ _ _ _ _ _ _ hok ?_
              rw [lookupA_setA_self]
              exact isExpired_fresh_meta cfg env.now _ mode ttl
        · rw [if_neg hs] at hok ⊢
          rw [Bool.not_eq_true] at hs
          rw [hs]
          refine putStage3_ok_files _ _ _ _ _ _ _ _ _ _ hok ?_
          rw [lookupA_setA_self]
          exact isExpired_fresh_meta cfg env.now _ mode ttl

theorem put_ok_files (cfg : Config) (env : Env) (st : ServerState) (r : PutRequest)
    (id : String) (chunks : List Bytes) (hbody : r.bodyChunks = some chunks)
    (hok : (handleClipboardPut cfg env st r id).result = .ok ()) :
    lookupA (handleClipboardPut cfg env st r id).state.files id
      = some ⟨chunks, isStream r, env.now⟩ := by
  unfold handleClipboardPut at hok ⊢
  by_cases hres : id ∈ reservedFiles
  · rw [if_pos hres] at hok
    exact absurd hok (by simp)
  · rw [if_neg hres] at hok ⊢
    simp only [hbody] at hok ⊢
    cases hex : lookupA st.files id with
    | none =>
      simp only [hex] at hok ⊢
      cases hcl : st.countLimiter.add 1 with
      | none =>
        simp only [hcl] at hok
        exact absurd hok (by simp)
      | some cl =>
        simp only [hcl] at hok ⊢
        exact putStage2_ok_files _ _ _ _ _ _ hok
    | some e0 =>
      simp only [hex] at hok ⊢
      rcases hgv : getVisitor env st.visitors r.ip with ⟨v, visitors1⟩
      simp only [hgv] at hok ⊢
      cases hvl : v.countLimiter.add 1 with
      | none =>
        simp only [hvl] at hok
        exact absurd hok (by simp)
      | some vcl =>
        simp only [hvl] at hok ⊢
        cases hmt : lookupA st.metas id with
        | none =>
          simp only [hmt] at hok
          exact absurd hok (by simp)
        | some m =>
          simp only [hmt] at hok ⊢
          by_cases hro : m.mode = modeReadOnly
          · rw [if_pos hro] at hok
            exact absurd hok (by simp)
          · rw [if_neg hro] at hok ⊢
            exact putStage2_ok_files _ _ _ _ _ _ hok

theorem setA_removeA {α : Type} (l : List (String × α)) (k : String) (v : α) :
    setA (removeA l k) k v = setA l k v := by
  unfold setA
  rw [removeA_of_lookupA_none _ _ (lookupA_removeA_self l k)]

/-! ## Helper lemmas: counting fresh puts (claim C5) -/

theorem put_fresh_ok (N : Nat) (st : ServerState) (ip id : String) (b : List Bytes)
    (hres : id ∉ reservedFiles)
    (hfresh : lookupA st.files id = none)
    (hcnt : st.countLimiter = ⟨(st.files.length : Int), (N : Int)⟩)
    (hlt : st.files.length < N)
    (hsz : st.sizeLimiter.limit = 0)
    (hvis : st.visitors = [])
    (hm : ∀ kv ∈ st.metas, kv.2.expires = 0) :
    handleClipboardPut (cfgCountCap N) (quietEnv 0) st (plainPutRequest ip b) id
      = ⟨.ok (), writePutOutput (generateClipURL (cfgCountCap N) id) 0 "text",
          { files := setA st.files id ⟨b, false, 0⟩,
            metas := setA st.metas id ⟨modeReadWrite, 0⟩,
            countLimiter := ⟨((st.files.length + 1 : Nat) : Int), (N : Int)⟩,
            sizeLimiter := ⟨entriesSize (setA st.files id ⟨b, false, 0⟩), 0⟩,
            visitors := [] }⟩ := by
  have hadd : st.countLimiter.add 1 = some ⟨(st.files.length : Int) + 1, (N : Int)⟩ := by
    rw [hcnt]
    refine (Limiter.add_eq_some_iff _ _ _).mpr ⟨?_, rfl⟩
    rintro ⟨-, h2⟩
    dsimp only at h2
    omega
  have hcopy := copyChunks_unlimited b (newLimiter 0) st.sizeLimiter [] rfl hsz
  have hm2 : ∀ kv ∈ setA st.metas id (⟨modeReadWrite, 0⟩ : Meta), kv.2.expires = 0 := by
    intro kv hkv
    rcases mem_setA hkv with h | h
    · exact hm kv h
    · rw [h]
  have hstep : handleClipboardPut (cfgCountCap N) (quietEnv 0) st (plainPutRequest ip b) id
      = ⟨.ok (), writePutOutput (generateClipURL (cfgCountCap N) id) 0 "text",
          updateStatsAndExpire (cfgCountCap N) (quietEnv 0)
            { files := setA st.files id ⟨b, false, 0⟩,
              metas := setA st.metas id ⟨modeReadWrite, 0⟩,
              countLimiter := ⟨(st.files.length : Int) + 1, (N : Int)⟩,
              sizeLimiter := ⟨st.sizeLimiter.value + totalLen b, st.sizeLimiter.limit⟩,
              visitors := st.visitors }⟩ := by
    unfold handleClipboardPut putStage2 putStage3
    rw [if_neg hres]
    simp [plainPutRequest, quietEnv, cfgCountCap, hfresh, hadd, hcopy, setA_removeA,
      getFileMode, getTTL, isStream, outputFormat, modeReadWrite]
  rw [hstep, sweep_noexpire _ _ _ rfl rfl hm2]
  simp only [hvis, List.filter_nil, Limiter.set, hsz,
    length_setA_of_lookupA_none (⟨b, false, 0⟩ : Entry) hfresh]

theorem put_fresh_429 (N : Nat) (st : ServerState) (ip id : String) (b : List Bytes)
    (hres : id ∉ reservedFiles) (hfresh : lookupA st.files id = none)
    (hcnt : st.countLimiter = ⟨(st.files.length : Int), (N : Int)⟩)
    (hN : 0 < N) (hfull : st.files.length = N) :
    handleClipboardPut (cfgCountCap N) (quietEnv 0) st (plainPutRequest ip b) id
      = ⟨.error 429, noOut, st⟩ := by
  have hadd : st.countLimiter.add 1 = none := by
    rw [hcnt, Limiter.add_eq_none_iff]
    dsimp only
    refine ⟨by omega, by omega⟩
  unfold handleClipboardPut
  rw [if_neg hres]
  simp [plainPutRequest, hfresh, hadd]

theorem put_overwrite_ok (N : Nat) (st : ServerState) (ip id : String) (b : List Bytes)
    (e : Entry) (m : Meta)
    (hres : id ∉ reservedFiles)
    (hnd : (keysOf st.files).Nodup)
    (hex : lookupA st.files id = some e)
    (hmt : lookupA st.metas id = some m)
    (hro : m.mode ≠ modeReadOnly)
    (hvis : st.visitors = [])
    (hsz : st.sizeLimiter.limit = 0)
    (hm : ∀ kv ∈ st.metas, kv.2.expires = 0) :
    (handleClipboardPut (cfgCountCap N) (quietEnv 0) st (plainPutRequest ip b) id).result
        = .ok ()
    ∧ (handleClipboardPut (cfgCountCap N) (quietEnv 0) st
        (plainPutRequest ip b) id).state.countLimiter
        = st.countLimiter.set ((st.files.length : Nat) : Int)
    ∧ (handleClipboardPut (cfgCountCap N) (quietEnv 0) st
        (plainPutRequest ip b) id).state.visitors
        = [(ip, ⟨⟨1, visitorCountLimit⟩, 0⟩)] := by
  have hcopy := copyChunks_unlimited b (newLimiter 0) st.sizeLimiter [] rfl hsz
  have hm2 : ∀ kv ∈ setA st.metas id (⟨modeReadWrite, 0⟩ : Meta), kv.2.expires = 0 := by
    intro kv hkv
    rcases mem_setA hkv with h | h
    · exact hm kv h
    · rw [h]
  have hgv : getVisitor ⟨0, false, false, false, false, false, false, [], []⟩ st.visitors ip
      = (⟨⟨0, visitorCountLimit⟩, 0⟩, [(ip, ⟨⟨0, visitorCountLimit⟩, 0⟩)]) := by
    rw [hvis]
    rfl
  have hvadd : (⟨0, visitorCountLimit⟩ : Limiter).add 1 = some ⟨1, visitorCountLimit⟩ := by
    decide
  have hsetv : setA [(ip, (⟨⟨0, visitorCountLimit⟩, 0⟩ : Visitor))] ip
      ⟨⟨1, visitorCountLimit⟩, 0⟩ = [(ip, ⟨⟨1, visitorCountLimit⟩, 0⟩)] := by
    simp [setA, removeA]
  have hstep : handleClipboardPut (cfgCountCap N) (quietEnv 0) st (plainPutRequest ip b) id
      = ⟨.ok (), writePutOutput (generateClipURL (cfgCountCap N) id) 0 "text",
          updateStatsAndExpire (cfgCountCap N) (quietEnv 0)
            { files := setA st.files id ⟨b, false, 0⟩,
              metas := setA st.metas id ⟨modeReadWrite, 0⟩,
              countLimiter := st.countLimiter,
              sizeLimiter := ⟨st.sizeLimiter.value + totalLen b, st.sizeLimiter.limit⟩,
              visitors := [(ip, ⟨⟨1, visitorCountLimit⟩, 0⟩)] }⟩ := by
    unfold handleClipboardPut putStage2 putStage3
    rw [if_neg hres]
    simp [plainPutRequest, quietEnv, cfgCountCap, hex, hmt, hro, hgv, hvadd, hsetv,
      hcopy, setA_removeA, getFileMode, getTTL, isStream, outputFormat, modeReadWrite]
  rw [hstep, sweep_noexpire _ _ _ rfl rfl hm2]
  refine ⟨rfl, ?_, ?_⟩
  · simp only [length_setA_of_lookupA_some (⟨b, false, 0⟩ : Entry) hnd hex]
  · simp [quietEnv, visitorExpungeAfterSecs]

theorem runFreshPuts_spec (N : Nat) (hN : 0 < N) :
    ∀ (reqs : List (String × List Bytes)) (st : ServerState),
    reqs ≠ [] →
    (reqs.map Prod.fst).Nodup →
    (∀ p ∈ reqs, p.1 ∉ reservedFiles) →
    (∀ p ∈ reqs, lookupA st.files p.1 = none) →
    st.countLimiter = ⟨(st.files.length : Int), (N : Int)⟩ →
    st.sizeLimiter.limit = 0 →
    st.visitors = [] →
    (∀ kv ∈ st.metas, kv.2.expires = 0) →
    st.files.length + reqs.length = N + 1 →
    (runFreshPuts (cfgCountCap N) (quietEnv 0) st reqs).1
      = List.replicate (N - st.files.length) (Except.ok ()) ++ [Except.error 429]
    ∧ (runFreshPuts (cfgCountCap N) (quietEnv 0) st reqs).2.visitors = [] := by
  intro reqs
  induction reqs with
  | nil =>
    intro st hne
    exact absurd rfl hne
  | cons hd rest ih =>
    intro st _ hnd hres hfresh hcnt hsz hvis hm hlen
    obtain ⟨id, b⟩ := hd
    simp only [List.length_cons] at hlen
    by_cases hfull : st.files.length = N
    · have hrest : rest = [] := by
        have hr0 : rest.length = 0 := by omega
        exact List.length_eq_zero.mp hr0
      subst hrest
      have h429 := put_fresh_429 N st "1.2.3.4" id b
        (hres (id, b) (List.mem_cons_self _ _))
        (hfresh (id, b) (List.mem_cons_self _ _)) hcnt hN hfull
      constructor
      · simp only [runFreshPuts, h429, hfull, Nat.sub_self, List.replicate_zero,
          List.nil_append]
      · simp only [runFreshPuts, h429]
        exact hvis
    · have hlt : st.files.length < N := by omega
      have hok := put_fresh_ok N st "1.2.3.4" id b
        (hres (id, b) (List.mem_cons_self _ _))
        (hfresh (id, b) (List.mem_cons_self _ _)) hcnt hlt hsz hvis hm
      simp only [List.map_cons, List.nodup_cons] at hnd
      have hstep2 := ih (ServerState.mk (setA st.files id (Entry.mk b false 0))
          (setA st.metas id (Meta.mk modeReadWrite 0))
          (Limiter.mk ((st.files.length + 1 : Nat) : Int) (N : Int))
          (Limiter.mk (entriesSize (setA st.files id (Entry.mk b false 0))) 0)
          [])
        (by intro hr; subst hr; simp only [List.length_nil] at hlen; omega)
        hnd.2
        (fun p hp => hres p (List.mem_cons_of_mem _ hp))
        (by
          intro p hp
          have hne : id ≠ p.1 := by
            intro he
            exact hnd.1 (he ▸ List.mem_map.mpr ⟨p, hp, rfl⟩)
          simp only
          rw [lookupA_setA_ne _ _ hne]
          exact hfresh p (List.mem_cons_of_mem _ hp))
        (by
          simp only [length_setA_of_lookupA_none (⟨b, false, 0⟩ : Entry)
            (hfresh (id, b) (List.mem_cons_self _ _))])
        rfl
        rfl
        (by
          intro kv hkv
          rcases mem_setA hkv with h | h
          · exact hm kv h
          · rw [h])
        (by
          simp only [length_setA_of_lookupA_none (⟨b, false, 0⟩ : Entry)
            (hfresh (id, b) (List.mem_cons_self _ _))]
          omega)
      have harith : N - st.files.length = (N - (st.files.length + 1)) + 1 := by omega
      simp only [runFreshPuts, hok]
      simp only [length_setA_of_lookupA_none (⟨b, false, 0⟩ : Entry)
        (hfresh (id, b) (List.mem_cons_self _ _))] at hstep2
      refine ⟨?_, hstep2.2⟩
      rw [hstep2.1, harith, List.replicate_succ, List.cons_append]

/-! ## Claim C5 -/

/-- C5: with a configured global count cap N, a run of N+1 writes to
distinct fresh identifiers from an empty clipboard yields N successes
followed by a 429, with the visitor put-count limiters never charged
(first conjunct); a write overwriting an existing writable entry succeeds
by charging add(1) only on the requesting visitor's put-count limiter,
leaving the global count limiter's value unchanged (second conjunct). -/
theorem global_count_cap_enforced (N : Nat) (hN : 0 < N)
    (reqs : List (String × List Bytes))
    (hlen : reqs.length = N + 1)
    (hnd : (reqs.map Prod.fst).Nodup)
    (hres : ∀ p ∈ reqs, p.1 ∉ reservedFiles) :
    ((runFreshPuts (cfgCountCap N) (quietEnv 0) (emptyState N) reqs).1
        = List.replicate N (Except.ok ()) ++ [Except.error 429]
      ∧ (runFreshPuts (cfgCountCap N) (quietEnv 0) (emptyState N) reqs).2.visitors = [])
    ∧ (∀ (st : ServerState) (ip id : String) (b : List Bytes) (e : Entry) (m : Meta),
        id ∉ reservedFiles →
        (keysOf st.files).Nodup →
        lookupA st.files id = some e →
        lookupA st.metas id = some m →
        m.mode ≠ modeReadOnly →
        st.visitors = [] →
        st.sizeLimiter.limit = 0 →
        (∀ kv ∈ st.metas, kv.2.expires = 0) →
        (handleClipboardPut (cfgCountCap N) (quietEnv 0) st (plainPutRequest ip b) id).result
            = .ok ()
        ∧ (handleClipboardPut (cfgCountCap N) (quietEnv 0) st
            (plainPutRequest ip b) id).state.countLimiter
            = st.countLimiter.set ((st.files.length : Nat) : Int)
        ∧ (handleClipboardPut (cfgCountCap N) (quietEnv 0) st
            (plainPutRequest ip b) id).state.visitors
            = [(ip, ⟨⟨1, visitorCountLimit⟩, 0⟩)]) := by
  constructor
  · have hrun := runFreshPuts_spec N hN reqs (emptyState N)
      (by
        intro h
        rw [h] at hlen
        simp only [List.length_nil] at hlen
        omega)
      hnd hres
      (fun p _ => rfl)
      rfl rfl rfl
      (by intro kv hkv; simp [emptyState] at hkv)
      (by simp [emptyState, hlen])
    simpa [emptyState] using hrun
  · intro st ip id b e m h1 h2 h3 h4 h5 h6 h7 h8
    exact put_overwrite_ok N st ip id b e m h1 h2 h3 h4 h5 h6 h7 h8

/-! ## Claim C1 -/

/-- C1: the claim says a successful write's body is exactly the retrieval
URL plus newline (text) or exactly the JSON object (json).  The code's
`writePutOutput` also writes 100 debug lines "hi there\n" after the
URL/JSON, so the body is never exactly the claimed bytes: evaluating the
handler's output function at a concrete successful write exhibits the
extra bytes in both formats. -/
theorem writePutOutput_emits_extra_debug_lines :
    (writePutOutput "https://srv/abc123" 0 "text").body
      = "https://srv/abc123\x0a" :: List.replicate 100 "hi there\x0a"
    ∧ (writePutOutput "https://srv/abc123" 0 "text").body ≠ ["https://srv/abc123\x0a"]
    ∧ (writePutOutput "https://srv/abc123" 7 "json").body
      ≠ [jsonPutBody "https://srv/abc123" 7] := by
  refine ⟨rfl, ?_, ?_⟩ <;> decide

/-! ## Claim C2 -/

/-- C2: for every permitted, non-reserved identifier and arbitrary content,
a successful PUT followed by a GET of the same identifier returns a body
byte-identical to the uploaded content. -/
theorem put_then_get_roundtrip (cfg : Config) (env : Env) (st : ServerState)
    (r : PutRequest) (id : String) (chunks : List Bytes)
    (_hid : isValidId id = true) (hres : id ∉ reservedFiles)
    (hbody : r.bodyChunks = some chunks)
    (hok : (handleClipboardPut cfg env st r id).result = .ok ()) :
    (handleClipboardGet (handleClipboardPut cfg env st r id).state id).result
      = .ok chunks.flatten := by
  have hf := put_ok_files cfg env st r id chunks hbody hok
  unfold handleClipboardGet
  rw [if_neg hres]
  simp only [hf]
  split <;> rfl

/-! ## Claim C8 -/

/-- C8: an entry created in streaming mode is deleted once a GET drains it:
the first GET returns the content and removes the backing file, and any
later GET of the same identifier returns not-found (404). -/
theorem stream_single_read_then_not_found (cfg : Config) (env : Env) (st : ServerState)
    (r : PutRequest) (id : String) (chunks : List Bytes)
    (hres : id ∉ reservedFiles) (hbody : r.bodyChunks = some chunks)
    (hstream : isStream r = true)
    (hok : (handleClipboardPut cfg env st r id).result = .ok ()) :
    (handleClipboardGet (handleClipboardPut cfg env st r id).state id).result
        = .ok chunks.flatten
    ∧ lookupA (handleClipboardGet
        (handleClipboardPut cfg env st r id).state id).state.files id = none
    ∧ (handleClipboardGet
        (handleClipboardGet (handleClipboardPut cfg env st r id).state id).state id).result
        = .error 404 := by
  have hf := put_ok_files cfg env st r id chunks hbody hok
  rw [hstream] at hf
  have h1 : handleClipboardGet (handleClipboardPut cfg env st r id).state id
      = ⟨.ok chunks.flatten,
         { (handleClipboardPut cfg env st r id).state with
            files := removeA (handleClipboardPut cfg env st r id).state.files id }⟩ := by
    unfold handleClipboardGet
    rw [if_neg hres]
    simp [hf]
  rw [h1]
  refine ⟨rfl, lookupA_removeA_self _ id, ?_⟩
  unfold handleClipboardGet
  rw [if_neg hres]
  simp only [lookupA_removeA_self]

/-! ## Claim C6 -/

/-- C6 counterexample: overwriting the existing entry "a" with a streaming
request whose mkfifo call fails.  The claim says the speculative add(1) is
rolled back by sub(1) on the same limiter that was charged, leaving that
counter unchanged.  In fact the charge went to the visitor's put-count
limiter (0 to 1, and it stays at 1), while the global count limiter, which
was never charged, is decremented from 1 to 0. -/
theorem stream_fail_rollback_wrong_limiter :
    (handleClipboardPut cfgAnyCount envMkfifoFail stOneFile
        (streamPutRequest "1.2.3.4" [[104]]) "a").result = .error 500
    ∧ stOneFile.countLimiter.value = 1
    ∧ (handleClipboardPut cfgAnyCount envMkfifoFail stOneFile
        (streamPutRequest "1.2.3.4" [[104]]) "a").state.countLimiter.value = 0
    ∧ lookupA stOneFile.visitors "1.2.3.4" = none
    ∧ lookupA (handleClipboardPut cfgAnyCount envMkfifoFail stOneFile
        (streamPutRequest "1.2.3.4" [[104]]) "a").state.visitors "1.2.3.4"
      = some ⟨⟨1, 10⟩, 0⟩ := by
  decide

/-- C6 (amended): when the streaming setup step (mkfifo or the early
flush) fails, the code always rolls back by sub(1) on the global count
limiter.  For a write creating an absent entry this cancels the global
add(1), leaving the global counter unchanged and reporting the failure
(first conjunct); for a write overwriting an existing entry the visitor's
put-count charge is not rolled back and the global counter is decremented
by one (second conjunct). -/
theorem stream_fail_rollback_global_only :
    (∀ (cfg : Config) (env : Env) (st : ServerState) (r : PutRequest) (id : String)
        (chunks : List Bytes) (mode : String) (ttl : Int),
      id ∉ reservedFiles →
      r.bodyChunks = some chunks →
      lookupA st.files id = none →
      st.countLimiter.limit = 0 →
      getFileMode cfg r = .ok mode →
      getTTL cfg r = .ok ttl →
      env.metaOpenFails = false →
      isStream r = true →
      (env.mkfifoFails = true ∨ env.flushFails = true) →
      (handleClipboardPut cfg env st r id).result = .error 500
      ∧ (handleClipboardPut cfg env st r id).state.countLimiter.value
          = st.countLimiter.value)
    ∧ (∀ (cfg : Config) (env : Env) (st : ServerState) (r : PutRequest) (id : String)
        (chunks : List Bytes) (mode : String) (ttl : Int) (e : Entry) (m : Meta),
      id ∉ reservedFiles →
      r.bodyChunks = some chunks →
      lookupA st.files id = some e →
      lookupA st.metas id = some m →
      m.mode ≠ modeReadOnly →
      lookupA st.visitors r.ip = none →
      getFileMode cfg r = .ok mode →
      getTTL cfg r = .ok ttl →
      env.metaOpenFails = false →
      isStream r = true →
      (env.mkfifoFails = true ∨ env.flushFails = true) →
      (handleClipboardPut cfg env st r id).result = .error 500
      ∧ (handleClipboardPut cfg env st r id).state.countLimiter.value
          = st.countLimiter.value - 1
      ∧ lookupA (handleClipboardPut cfg env st r id).state.visitors r.ip
          = some ⟨⟨1, visitorCountLimit⟩, env.now⟩) := by
  constructor
  · intro cfg env st r id chunks mode ttl hres hbody hfresh hcl hmode httl hmo hstream hfail
    have hadd := Limiter.add_of_limit_zero st.countLimiter 1 hcl
    by_cases hmk : env.mkfifoFails = true
    · constructor
      · unfold handleClipboardPut putStage2
        rw [if_neg hres]
        simp [hbody, hfresh, hadd, hmode, httl, hmo, hstream, hmk]
      · unfold handleClipboardPut putStage2
        rw [if_neg hres]
        simp [hbody, hfresh, hadd, hmode, httl, hmo, hstream, hmk, Limiter.sub]
    · have hff : env.flushFails = true := hfail.resolve_left hmk
      rw [Bool.not_eq_true] at hmk
      constructor
      · unfold handleClipboardPut putStage2
        rw [if_neg hres]
        simp [hbody, hfresh, hadd, hmode, httl, hmo, hstream, hmk, hff]
      · unfold handleClipboardPut putStage2
        rw [if_neg hres]
        simp [hbody, hfresh, hadd, hmode, httl, hmo, hstream, hmk, hff, Limiter.sub]
  · intro cfg env st r id chunks mode ttl e m hres hbody hex hmt hro hvip hmode httl hmo
      hstream hfail
    have hgv : getVisitor env st.visitors r.ip
        = (⟨⟨0, visitorCountLimit⟩, env.now⟩,
           setA st.visitors r.ip ⟨⟨0, visitorCountLimit⟩, env.now⟩) := by
      unfold getVisitor
      rw [hvip]
      rfl
    have hvadd : (⟨0, visitorCountLimit⟩ : Limiter).add 1
        = some ⟨1, visitorCountLimit⟩ := by decide
    by_cases hmk : env.mkfifoFails = true
    · refine ⟨?_, ?_, ?_⟩ <;>
        (unfold handleClipboardPut putStage2
         rw [if_neg hres]
         simp [hbody, hex, hmt, hro, hgv, hvadd, hmode, httl, hmo, hstream, hmk,
           Limiter.sub, lookupA_setA_self])
    · have hff : env.flushFails = true := hfail.resolve_left hmk
      rw [Bool.not_eq_true] at hmk
      refine ⟨?_, ?_, ?_⟩ <;>
        (unfold handleClipboardPut putStage2
         rw [if_neg hres]
         simp [hbody, hex, hmt, hro, hgv, hvadd, hmode, httl, hmo, hstream, hmk, hff,
           Limiter.sub, lookupA_setA_self])

/-! ## Claim C7 -/

/-- C7: a write whose body exceeds the per-upload size cap, or would push
the aggregate stored bytes past the global size cap, aborts the copy,
deletes the partial destination file (no partial file remains), and
returns payload-too-large (413). -/
theorem size_cap_payload_too_large (cfg : Config) (env : Env) (st : ServerState)
    (r : PutRequest) (id : String) (chunks : List Bytes) (mode : String) (ttl : Int)
    (hres : id ∉ reservedFiles)
    (hbody : r.bodyChunks = some chunks)
    (hfresh : lookupA st.files id = none)
    (hcl : st.countLimiter.limit = 0)
    (hmode : getFileMode cfg r = .ok mode)
    (httl : getTTL cfg r = .ok ttl)
    (hmo : env.metaOpenFails = false)
    (hns : isStream r = false)
    (ho : env.openFails = false)
    (hcap : (0 < cfg.fileSizeLimit ∧ totalLen chunks > cfg.fileSizeLimit)
      ∨ (cfg.fileSizeLimit = 0 ∧ st.sizeLimiter.limit ≠ 0 ∧
         st.sizeLimiter.value ≤ st.sizeLimiter.limit ∧
         st.sizeLimiter.value + totalLen chunks > st.sizeLimiter.limit)) :
    (handleClipboardPut cfg env st r id).result = .error 413
    ∧ lookupA (handleClipboardPut cfg env st r id).state.files id = none := by
  have hcopy : (copyChunks (newLimiter cfg.fileSizeLimit) st.sizeLimiter [] chunks).1
      = false := by
    apply copyChunks_cap_fail
    rcases hcap with ⟨h1, h2⟩ | ⟨h1, h2, h3, h4⟩
    · left
      refine ⟨?_, ?_, ?_⟩ <;> dsimp only [newLimiter] <;> omega
    · right
      refine ⟨?_, h2, h3, ?_⟩ <;> dsimp only [newLimiter] <;> omega
  rcases hcc : copyChunks (newLimiter cfg.fileSizeLimit) st.sizeLimiter [] chunks
    with ⟨okCopy, fl2, sl2, written⟩
  have hoc : okCopy = false := by rw [hcc] at hcopy; exact hcopy
  subst hoc
  have hadd := Limiter.add_of_limit_zero st.countLimiter 1 hcl
  constructor
  · unfold handleClipboardPut putStage2 putStage3
    rw [if_neg hres]
    simp [hbody, hfresh, hadd, hmode, httl, hmo, hns, ho, hcc]
  · unfold handleClipboardPut putStage2 putStage3
    rw [if_neg hres]
    simp [hbody, hfresh, hadd, hmode, httl, hmo, hns, ho, hcc]
    apply sweep_lookup_none
    exact lookupA_removeA_self _ _

/-! ## Claim C9 -/

/-- C9 counterexample: one expired entry "a" of size 5; its content
removal succeeds but its meta-file removal fails.  The files that survive
expiry deletion are none (the directory is empty afterwards), yet the
sweep sets the global entry-count limiter to 1 and the size limiter to 5,
so the limiters are not set to the number and total size of surviving
files as the claim states. -/
theorem sweep_counts_file_with_failed_meta_removal :
    (updateStatsAndExpire cfgAnyCount envMetaRemoveFail stExpired).files = []
    ∧ (updateStatsAndExpire cfgAnyCount envMetaRemoveFail stExpired).countLimiter.value = 1
    ∧ (updateStatsAndExpire cfgAnyCount envMetaRemoveFail stExpired).sizeLimiter.value = 5 := by
  decide

theorem sweepFold_count (cfg : Config) (env : Env) (metas0 : List (String × Meta)) :
    ∀ (snapshot : List (String × Entry)) (files : List (String × Entry))
      (metas : List (String × Meta)) (num sz : Int),
    (∀ kv ∈ snapshot, lookupA metas kv.1 = lookupA metas0 kv.1) →
    (keysOf snapshot).Nodup →
    (sweepFold cfg env snapshot files metas num sz).2.2
      = (num + ((snapshot.filter fun kv => !expiryDeleted cfg env metas0 kv).length : Int),
         sz + entriesSize (snapshot.filter fun kv => !expiryDeleted cfg env metas0 kv)) := by
  intro snapshot
  induction snapshot with
  | nil =>
    intro files metas num sz _ _
    simp [sweepFold, entriesSize]
  | cons hd rest ih =>
    intro files metas num sz hagree hnd
    obtain ⟨id, e⟩ := hd
    simp only [keysOf, List.map_cons, List.nodup_cons] at hnd
    have hagh : lookupA metas id = lookupA metas0 id :=
      hagree (id, e) (List.mem_cons_self _ _)
    have hagr : ∀ kv ∈ rest, lookupA metas kv.1 = lookupA metas0 kv.1 :=
      fun kv hkv => hagree kv (List.mem_cons_of_mem _ hkv)
    have hndr : (keysOf rest).Nodup := hnd.2
    by_cases hexp : isExpired cfg env.now e (lookupA metas id) = true
    · by_cases hc : id ∈ env.removeContentFails
      · have hdel : (!expiryDeleted cfg env metas0 (id, e)) = true := by
          simp [expiryDeleted, hc]
        simp only [sweepFold, hexp, if_true, if_pos hc]
        rw [ih files metas (num + 1) (sz + e.size) hagr hndr]
        simp only [List.filter_cons, hdel, if_true, List.length_cons, entriesSize_cons,
          Prod.mk.injEq]
        constructor <;> push_cast <;> ring
      · by_cases hmf : id ∈ env.removeMetaFails
        · have hdel : (!expiryDeleted cfg env metas0 (id, e)) = true := by
            simp [expiryDeleted, hmf]
          simp only [sweepFold, hexp, if_true, if_neg hc, if_pos hmf]
          rw [ih (removeA files id) metas (num + 1) (sz + e.size) hagr hndr]
          simp only [List.filter_cons, hdel, if_true, List.length_cons, entriesSize_cons,
            Prod.mk.injEq]
          constructor <;> push_cast <;> ring
        · have hdel : (!expiryDeleted cfg env metas0 (id, e)) = false := by
            simp only [expiryDeleted]
            rw [← hagh]
            simp [hexp, hc, hmf]
          have hagr2 : ∀ kv ∈ rest, lookupA (removeA metas id) kv.1
              = lookupA metas0 kv.1 := by
            intro kv hkv
            have hne : id ≠ kv.1 := by
              intro he
              exact hnd.1 (he ▸ List.mem_map.mpr ⟨kv, hkv, rfl⟩)
            rw [lookupA_removeA_ne metas hne]
            exact hagr kv hkv
          simp only [sweepFold, hexp, if_true, if_neg hc, if_neg hmf]
          rw [ih (removeA files id) (removeA metas id) num sz hagr2 hndr]
          simp only [List.filter_cons, hdel, Bool.false_eq_true, if_false]
    · rw [Bool.not_eq_true] at hexp
      have hdel : (!expiryDeleted cfg env metas0 (id, e)) = true := by
        simp only [expiryDeleted]
        rw [← hagh]
        simp [hexp]
      simp only [sweepFold, hexp, Bool.false_eq_true, if_false]
      rw [ih files metas (num + 1) (sz + e.size) hagr hndr]
      simp only [List.filter_cons, hdel, if_true, List.length_cons, entriesSize_cons,
        Prod.mk.injEq]
      constructor <;> push_cast <;> ring

/-- C9 (amended): a sweep whose directory read fails leaves both global
limiter values unchanged; a successful sweep sets them to the count and
total size of the files for which expiry deletion did not fully succeed —
files not expired, or whose content removal failed, or whose meta-file
removal failed after the content file was already removed.  (The claim as
stated counts only files surviving on disk; a file whose content was
removed but whose meta removal failed no longer survives yet is still
counted, see the counterexample.) -/
theorem sweep_sets_counters_to_unexpired (cfg : Config) (env : Env) (st : ServerState)
    (hnd : (keysOf st.files).Nodup) :
    (env.readDirFails = true →
      (updateStatsAndExpire cfg env st).countLimiter.value = st.countLimiter.value
      ∧ (updateStatsAndExpire cfg env st).sizeLimiter.value = st.sizeLimiter.value)
    ∧ (env.readDirFails = false →
      (updateStatsAndExpire cfg env st).countLimiter.value
        = ((st.files.filter fun kv => !expiryDeleted cfg env st.metas kv).length : Int)
      ∧ (updateStatsAndExpire cfg env st).sizeLimiter.value
        = entriesSize (st.files.filter fun kv => !expiryDeleted cfg env st.metas kv)) := by
  constructor
  · intro h
    unfold updateStatsAndExpire
    rw [h]
    exact ⟨rfl, rfl⟩
  · intro h
    have hc := sweepFold_count cfg env st.metas st.files st.files st.metas 0 0
      (fun kv _ => rfl) hnd
    have h1 : (sweepFold cfg env st.files st.files st.metas 0 0).2.2.1
        = ((st.files.filter fun kv => !expiryDeleted cfg env st.metas kv).length : Int) := by
      rw [hc]
      ring
    have h2 : (sweepFold cfg env st.files st.files st.metas 0 0).2.2.2
        = entriesSize (st.files.filter fun kv => !expiryDeleted cfg env st.metas kv) := by
      rw [hc]
      ring
    unfold updateStatsAndExpire
    rw [h]
    simp [Limiter.set, h1, h2]

/-! ## Claim C3 -/

/-- C3: a signed-request credential is accepted iff its decoded signature
equals the HMAC-SHA256 over "timestamp:ttl:method:path" keyed by the
secret and the request age is at most ttl seconds (the fixed default
window when ttl is zero); consequently a signature computed for one
method/path pair whose MAC differs from the one for another pair is
rejected there. -/
theorem authorizeHmac_accept_iff (keyBytes : Bytes) (hmacSha256 : Bytes → String → Bytes)
    (b64decode : String → Option Bytes) (now : Int)
    (timestamp ttlSecs : Nat) (sigB64 : String) (method path : String) :
    (authorizeHmac keyBytes hmacSha256 b64decode now timestamp ttlSecs sigB64 method path
        = true
      ↔ b64decode sigB64
          = some (hmacSha256 keyBytes (hmacMessage timestamp ttlSecs method path))
        ∧ now - (timestamp : Int)
            ≤ (if ttlSecs > 0 then (ttlSecs : Int) else defaultMaxAuthAgeSecs))
    ∧ ∀ (method2 path2 : String),
        hmacSha256 keyBytes (hmacMessage timestamp ttlSecs method2 path2)
          ≠ hmacSha256 keyBytes (hmacMessage timestamp ttlSecs method path) →
        b64decode sigB64
          = some (hmacSha256 keyBytes (hmacMessage timestamp ttlSecs method path)) →
        authorizeHmac keyBytes hmacSha256 b64decode now timestamp ttlSecs sigB64
          method2 path2 = false := by
  have hiff : ∀ (m2 p2 : String),
      authorizeHmac keyBytes hmacSha256 b64decode now timestamp ttlSecs sigB64 m2 p2 = true
      ↔ b64decode sigB64 = some (hmacSha256 keyBytes (hmacMessage timestamp ttlSecs m2 p2))
        ∧ now - (timestamp : Int)
            ≤ (if ttlSecs > 0 then (ttlSecs : Int) else defaultMaxAuthAgeSecs) := by
    intro m2 p2
    simp only [authorizeHmac]
    cases hdec : b64decode sigB64 with
    | none => simp
    | some hash =>
      dsimp only
      generalize hM : (if ttlSecs > 0 then (ttlSecs : Int) else defaultMaxAuthAgeSecs) = M
      have hM0 : 0 < M := by
        rw [← hM]
        unfold defaultMaxAuthAgeSecs
        split <;> omega
      by_cases hh : hash = hmacSha256 keyBytes (hmacMessage timestamp ttlSecs m2 p2)
      · rw [if_neg (fun hne => hne hh), if_pos hM0]
        constructor
        · intro ht
          refine ⟨by rw [hh], ?_⟩
          by_contra hgt
          push_neg at hgt
          rw [if_pos hgt] at ht
          exact Bool.noConfusion ht
        · rintro ⟨-, hle⟩
          rw [if_neg (not_lt.mpr hle)]
      · rw [if_pos hh]
        simp [hh]
  refine ⟨hiff method path, ?_⟩
  intro m2 p2 hne hdec
  cases hval : authorizeHmac keyBytes hmacSha256 b64decode now timestamp ttlSecs sigB64
      m2 p2 with
  | false => rfl
  | true =>
    obtain ⟨hd2, -⟩ := (hiff m2 p2).mp hval
    rw [hdec] at hd2
    injection hd2 with hd3
    exact absurd hd3.symm hne

/-! ## Claim C4 -/

theorem splitOnByte_not_mem (b : Nat) : ∀ (l : Bytes), b ∉ l → splitOnByte b l = [l] := by
  intro l
  induction l with
  | nil => intro _; rfl
  | cons c cs ih =>
    intro h
    simp only [List.mem_cons] at h
    push_neg at h
    simp only [splitOnByte, ih h.2]
    rw [if_neg (fun he => h.1 he.symm)]

theorem splitOnByte_append_colon (b : Nat) :
    ∀ (u p : Bytes), b ∉ u → splitOnByte b (u ++ b :: p) = u :: splitOnByte b p := by
  intro u
  induction u with
  | nil =>
    intro p _
    simp [splitOnByte]
  | cons c cs ih =>
    intro p h
    simp only [List.mem_cons] at h
    push_neg at h
    simp only [List.cons_append, splitOnByte, List.append_eq, ih p h.2]
    rw [if_neg (fun he => h.1 he.symm)]

/-- C4 counterexample: the username "a:b" with the correct password "pw"
(decoded credential bytes "a:b:pw").  The password derives exactly the
configured key, yet the credential is rejected, because the decoded value
splits on ':' into three parts rather than two — so the claim that a
correct-password credential is accepted "for every supplied username"
fails. -/
theorem authorizeBasic_colon_username_rejected :
    deriveKeyFirstArg [112, 119] keyPw.salt = keyPw.bytes
    ∧ authorizeBasic keyPw deriveKeyFirstArg b64identity "a:b:pw" = false := by
  decide

/-- C4 (amended): on a protected server, a Basic credential whose decoded
value is "user:password" with exactly one colon (neither the username nor
the password contains ':') is accepted iff the password derives the
configured key; within that shape the username is ignored.  Credentials
whose decoded value does not contain exactly one colon are rejected
regardless of the password. -/
theorem authorizeBasic_accept_iff_single_colon (key : Key)
    (deriveKey : Bytes → Bytes → Bytes) (b64decode : String → Option Bytes)
    (s : String) (user pass : Bytes)
    (hdec : b64decode s = some (user ++ 58 :: pass))
    (huser : (58 : Nat) ∉ user) (hpass : (58 : Nat) ∉ pass) :
    authorizeBasic key deriveKey b64decode s = true
      ↔ deriveKey pass key.salt = key.bytes := by
  unfold authorizeBasic
  simp only [hdec, splitOnByte_append_colon 58 user pass huser,
    splitOnByte_not_mem 58 pass hpass]
  simp

/-! ## Claim C10 -/

/-- C10: when the auth query parameter is present on a protected server,
its base64-decoded value replaces the Authorization header entirely: a
decode failure yields unauthorized regardless of the header, and a decode
success makes authorization behave exactly as if the decoded value were
the header. -/
theorem query_auth_overrides_header (key : Key) (hmacSha256 : Bytes → String → Bytes)
    (deriveKey : Bytes → Bytes → Bytes) (b64decode : String → Option Bytes)
    (now : Int) (authHeader q method path : String) :
    (b64decode q = none →
      authorize (some key) hmacSha256 deriveKey b64decode now authHeader (some q)
        method path = false)
    ∧ (∀ bs, b64decode q = some bs →
      authorize (some key) hmacSha256 deriveKey b64decode now authHeader (some q)
        method path
      = authorize (some key) hmacSha256 deriveKey b64decode now (bytesToString bs) none
        method path) := by
  constructor
  · intro h
    unfold authorize
    simp [h]
  · intro bs h
    unfold authorize
    simp [h]

/-! ## Witnesses: each claim theorem with hypotheses, applied at a
concrete input with every hypothesis discharged. -/

/-- Witness for C2 at a concrete upload of "hi" under id "abc123". -/
theorem put_then_get_roundtrip_witness :
    isValidId "abc123" = true
    ∧ "abc123" ∉ reservedFiles
    ∧ (plainPutRequest "1.2.3.4" [[104, 105]]).bodyChunks = some [[104, 105]]
    ∧ (handleClipboardPut (cfgCountCap 3) (quietEnv 0) (emptyState 3)
        (plainPutRequest "1.2.3.4" [[104, 105]]) "abc123").result = .ok ()
    ∧ (handleClipboardGet (handleClipboardPut (cfgCountCap 3) (quietEnv 0) (emptyState 3)
        (plainPutRequest "1.2.3.4" [[104, 105]]) "abc123").state "abc123").result
      = .ok [104, 105] :=
  ⟨by decide, by decide, rfl, by decide,
   put_then_get_roundtrip (cfgCountCap 3) (quietEnv 0) (emptyState 3)
     (plainPutRequest "1.2.3.4" [[104, 105]]) "abc123" [[104, 105]]
     (by decide) (by decide) rfl (by decide)⟩

/-- Witness for C3 with a length-MAC: the GET credential is accepted
within its window and rejected when presented for DELETE. -/
theorem authorizeHmac_accept_iff_witness :
    hmacLenFn [] (hmacMessage 5 30 "DELETE" "/p") ≠ hmacLenFn [] (hmacMessage 5 30 "GET" "/p")
    ∧ b64Const11 "sig" = some (hmacLenFn [] (hmacMessage 5 30 "GET" "/p"))
    ∧ authorizeHmac [] hmacLenFn b64Const11 6 5 30 "sig" "GET" "/p" = true
    ∧ authorizeHmac [] hmacLenFn b64Const11 6 5 30 "sig" "DELETE" "/p" = false :=
  ⟨by decide, by decide,
   (authorizeHmac_accept_iff [] hmacLenFn b64Const11 6 5 30 "sig" "GET" "/p").1.mpr
     (by decide),
   (authorizeHmac_accept_iff [] hmacLenFn b64Const11 6 5 30 "sig" "GET" "/p").2 "DELETE" "/p"
     (by decide) (by decide)⟩

/-- Witness for C4 (amended) at username "u", password "pw". -/
theorem authorizeBasic_accept_iff_single_colon_witness :
    b64identity "u:pw" = some ([117] ++ 58 :: [112, 119])
    ∧ (58 : Nat) ∉ ([117] : Bytes)
    ∧ (58 : Nat) ∉ ([112, 119] : Bytes)
    ∧ authorizeBasic keyPw deriveKeyFirstArg b64identity "u:pw" = true :=
  ⟨by decide, by decide, by decide,
   (authorizeBasic_accept_iff_single_colon keyPw deriveKeyFirstArg b64identity "u:pw"
     [117] [112, 119] (by decide) (by decide) (by decide)).mpr (by decide)⟩

/-- Witness for C5 with cap 1: the first fresh put succeeds, the second
returns 429. -/
theorem global_count_cap_enforced_witness :
    (0 < 1)
    ∧ ([("a", [[104]]), ("b", [[105]])] : List (String × List Bytes)).length = 1 + 1
    ∧ (([("a", [[104]]), ("b", [[105]])] : List (String × List Bytes)).map Prod.fst).Nodup
    ∧ (∀ p ∈ ([("a", [[104]]), ("b", [[105]])] : List (String × List Bytes)),
        p.1 ∉ reservedFiles)
    ∧ (runFreshPuts (cfgCountCap 1) (quietEnv 0) (emptyState 1)
        [("a", [[104]]), ("b", [[105]])]).1
      = List.replicate 1 (Except.ok ()) ++ [Except.error 429] := by
  refine ⟨by decide, by decide, by decide, by decide, ?_⟩
  exact (global_count_cap_enforced 1 (by decide) [("a", [[104]]), ("b", [[105]])]
    (by decide) (by decide) (by decide)).1.1

/-- Witness for C6 (amended): the fresh-entry case leaves the global
counter unchanged; the overwrite case decrements it. -/
theorem stream_fail_rollback_global_only_witness :
    "abc123" ∉ reservedFiles
    ∧ lookupA (emptyState 0).files "abc123" = none
    ∧ (emptyState 0).countLimiter.limit = 0
    ∧ (handleClipboardPut cfgAnyCount envMkfifoFail (emptyState 0)
        (streamPutRequest "1.2.3.4" [[104]]) "abc123").result = .error 500
    ∧ (handleClipboardPut cfgAnyCount envMkfifoFail (emptyState 0)
        (streamPutRequest "1.2.3.4" [[104]]) "abc123").state.countLimiter.value
      = (emptyState 0).countLimiter.value
    ∧ (handleClipboardPut cfgAnyCount envMkfifoFail stOneFile
        (streamPutRequest "1.2.3.4" [[104]]) "a").state.countLimiter.value
      = stOneFile.countLimiter.value - 1 := by
  refine ⟨by decide, rfl, rfl, ?_, ?_, ?_⟩
  · exact (stream_fail_rollback_global_only.1 cfgAnyCount envMkfifoFail (emptyState 0)
      (streamPutRequest "1.2.3.4" [[104]]) "abc123" [[104]] modeReadWrite 0
      (by decide) rfl rfl rfl (by decide) (by decide) rfl (by decide) (Or.inl rfl)).1
  · exact (stream_fail_rollback_global_only.1 cfgAnyCount envMkfifoFail (emptyState 0)
      (streamPutRequest "1.2.3.4" [[104]]) "abc123" [[104]] modeReadWrite 0
      (by decide) rfl rfl rfl (by decide) (by decide) rfl (by decide) (Or.inl rfl)).2
  · exact (stream_fail_rollback_global_only.2 cfgAnyCount envMkfifoFail stOneFile
      (streamPutRequest "1.2.3.4" [[104]]) "a" [[104]] modeReadWrite 0
      ⟨[[104]], false, 0⟩ ⟨modeReadWrite, 0⟩
      (by decide) rfl (by decide) (by decide) (by decide) rfl (by decide) (by decide)
      rfl (by decide) (Or.inl rfl)).2.1

/-- Witness for C7: a two-byte body against a one-byte per-upload cap. -/
theorem size_cap_payload_too_large_witness :
    (0 : Int) < cfgSmallFile.fileSizeLimit
    ∧ totalLen [[104, 105]] > cfgSmallFile.fileSizeLimit
    ∧ (handleClipboardPut cfgSmallFile (quietEnv 0) (emptyState 0)
        (plainPutRequest "1.2.3.4" [[104, 105]]) "abc123").result = .error 413
    ∧ lookupA (handleClipboardPut cfgSmallFile (quietEnv 0) (emptyState 0)
        (plainPutRequest "1.2.3.4" [[104, 105]]) "abc123").state.files "abc123" = none := by
  refine ⟨by decide, by decide, ?_, ?_⟩
  · exact (size_cap_payload_too_large cfgSmallFile (quietEnv 0) (emptyState 0)
      (plainPutRequest "1.2.3.4" [[104, 105]]) "abc123" [[104, 105]] modeReadWrite 0
      (by decide) rfl rfl rfl (by decide) (by decide) rfl (by decide) rfl
      (Or.inl (by decide))).1
  · exact (size_cap_payload_too_large cfgSmallFile (quietEnv 0) (emptyState 0)
      (plainPutRequest "1.2.3.4" [[104, 105]]) "abc123" [[104, 105]] modeReadWrite 0
      (by decide) rfl rfl rfl (by decide) (by decide) rfl (by decide) rfl
      (Or.inl (by decide))).2

/-- Witness for C8: a streamed upload is drained once and then 404s. -/
theorem stream_single_read_then_not_found_witness :
    "abc123" ∉ reservedFiles
    ∧ (streamPutRequest "1.2.3.4" [[104]]).bodyChunks = some [[104]]
    ∧ isStream (streamPutRequest "1.2.3.4" [[104]]) = true
    ∧ (handleClipboardPut (cfgCountCap 3) (quietEnv 0) (emptyState 3)
        (streamPutRequest "1.2.3.4" [[104]]) "abc123").result = .ok ()
    ∧ (handleClipboardGet (handleClipboardPut (cfgCountCap 3) (quietEnv 0) (emptyState 3)
        (streamPutRequest "1.2.3.4" [[104]]) "abc123").state "abc123").result = .ok [104]
    ∧ (handleClipboardGet (handleClipboardGet
        (handleClipboardPut (cfgCountCap 3) (quietEnv 0) (emptyState 3)
          (streamPutRequest "1.2.3.4" [[104]]) "abc123").state "abc123").state
        "abc123").result = .error 404 := by
  refine ⟨by decide, rfl, by decide, by decide, ?_, ?_⟩
  · exact (stream_single_read_then_not_found (cfgCountCap 3) (quietEnv 0) (emptyState 3)
      (streamPutRequest "1.2.3.4" [[104]]) "abc123" [[104]]
      (by decide) rfl (by decide) (by decide)).1
  · exact (stream_single_read_then_not_found (cfgCountCap 3) (quietEnv 0) (emptyState 3)
      (streamPutRequest "1.2.3.4" [[104]]) "abc123" [[104]]
      (by decide) rfl (by decide) (by decide)).2.2

/-- Witness for C9 (amended) on the expired-entry fixture. -/
theorem sweep_sets_counters_to_unexpired_witness :
    (keysOf stExpired.files).Nodup
    ∧ envMetaRemoveFail.readDirFails = false
    ∧ (updateStatsAndExpire cfgAnyCount envMetaRemoveFail stExpired).countLimiter.value
      = ((stExpired.files.filter
          fun kv => !expiryDeleted cfgAnyCount envMetaRemoveFail stExpired.metas kv).length
            : Int) := by
  refine ⟨by decide, rfl, ?_⟩
  exact ((sweep_sets_counters_to_unexpired cfgAnyCount envMetaRemoveFail stExpired
    (by decide)).2 rfl).1

/-- Witness for C10: an invalid query override rejects a request whose
header credential alone would be accepted. -/
theorem query_auth_overrides_header_witness :
    b64QueryFail "q" = none
    ∧ authorize (some keyPw) hmacLenFn deriveKeyFirstArg b64QueryFail 0 "Basic u:pw"
        none "GET" "/x" = true
    ∧ authorize (some keyPw) hmacLenFn deriveKeyFirstArg b64QueryFail 0 "Basic u:pw"
        (some "q") "GET" "/x" = false := by
  refine ⟨by decide, by decide, ?_⟩
  exact (query_auth_overrides_header keyPw hmacLenFn deriveKeyFirstArg b64QueryFail 0
    "Basic u:pw" "q" "GET" "/x").1 (by decide)

end Pcopy
